import Mathlib

set_option linter.unusedVariables false

namespace JollyG

/-!
Shallow embedding of the period-aggregation and gap-detection logic of
`app/(tabs)/notification.tsx` (`fetchSummaryData`, `handleDrillDown`) and of
the weekly save path of `app/(tabs)/finances.tsx` (`handleSave`).

Conventions of the embedding:
* JS numbers that can be `NaN` are modelled as `Option ℚ` (`none` = `NaN`);
  `Number(x)` on a non-numeric string yields `NaN`, and `NaN` propagates
  through `+`.
* A JS `Date` is modelled by its calendar fields (`month` 0-based, as in JS);
  `getTime()` comparison of two in-range dates agrees with the lexicographic
  field order, which is the order used here.  An invalid date is `none`.
* JS objects used as string-keyed maps are modelled as association lists with
  insert-or-update (keys are unique, insertion order kept), exactly the
  observable behaviour of a JS object.
-/

/-- A JS number that may be `NaN`: `none` models `NaN`. -/
abbrev QNaN := Option ℚ

/-- JS addition on possibly-`NaN` numbers: `NaN` propagates. -/
def nadd : QNaN → QNaN → QNaN
  | some a, some b => some (a + b)
  | _, _ => none

/-- JS subtraction on possibly-`NaN` numbers. -/
def nsub : QNaN → QNaN → QNaN
  | some a, some b => some (a - b)
  | _, _ => none

/-- A JS `Date` broken into calendar fields; `month` is 0-based as in JS. -/
structure SDateTime where
  year : Int
  month : Nat
  day : Nat
  hour : Nat
  minute : Nat
  second : Nat
  ms : Nat
  deriving DecidableEq, Repr

/-- `a.getTime() <= b.getTime()` for calendar-valid dates: lexicographic
field comparison. -/
def dateLe (a b : SDateTime) : Prop :=
  a.year < b.year ∨ (a.year = b.year ∧ (a.month < b.month ∨ (a.month = b.month ∧
    (a.day < b.day ∨ (a.day = b.day ∧ (a.hour < b.hour ∨ (a.hour = b.hour ∧
    (a.minute < b.minute ∨ (a.minute = b.minute ∧ (a.second < b.second ∨
    (a.second = b.second ∧ a.ms ≤ b.ms)))))))))))

instance (a b : SDateTime) : Decidable (dateLe a b) := by
  unfold dateLe; exact inferInstance

/-- The `{start, end}` interval of `fetchSummaryData`. -/
structure Interval where
  startD : SDateTime
  endD : SDateTime
  deriving DecidableEq, Repr

/-- `isWithinInterval(d, interval)` (inclusive on both ends). -/
def inInterval (itv : Interval) (d : SDateTime) : Prop :=
  dateLe itv.startD d ∧ dateLe d itv.endD

instance (itv : Interval) (d : SDateTime) : Decidable (inInterval itv d) := by
  unfold inInterval; exact inferInstance

def isLeapYear (y : Int) : Prop := y % 4 = 0 ∧ (y % 100 ≠ 0 ∨ y % 400 = 0)

instance (y : Int) : Decidable (isLeapYear y) := by
  unfold isLeapYear; exact inferInstance

/-- Number of days of 0-based month `m` of year `y` (Gregorian). -/
def daysInMonth (y : Int) (m : Nat) : Nat :=
  [31, if isLeapYear y then 29 else 28, 31, 30, 31, 30,
   31, 31, 30, 31, 30, 31].getD m 31

/-- `new Date(y, m, 1)` normalises a month overflow into the year. -/
def normYM (y : Int) (m : Nat) : Int × Nat := (y + ((m / 12 : Nat) : Int), m % 12)

/-- `startOfMonth`: first instant of the month. -/
def monthStart (y : Int) (m : Nat) : SDateTime := ⟨y, m, 1, 0, 0, 0, 0⟩

/-- `endOfMonth`: last instant (`23:59:59.999`) of the month. -/
def monthEnd (y : Int) (m : Nat) : SDateTime :=
  ⟨y, m, daysInMonth y m, 23, 59, 59, 999⟩

inductive View
  | month
  | quarter
  | year
  deriving DecidableEq, Repr

/-- The interval computed at the top of `fetchSummaryData` from
`selectedYear`, `selectedMonth`, `selectedQuarter` and `summaryView`
(`refDate = new Date(selectedYear, view == 'quarter' ? q*3 : m, 1)`,
then `startOfMonth/endOfMonth`, `startOfQuarter/endOfQuarter`, or the
year-literal bounds, which have millisecond 0 in the source). -/
def resolveInterval (view : View) (selYear : Int) (selMonth selQuarter : Nat) :
    Interval :=
  match view with
  | .month =>
    let p := normYM selYear selMonth
    ⟨monthStart p.1 p.2, monthEnd p.1 p.2⟩
  | .quarter =>
    let p := normYM selYear (selQuarter * 3)
    let qs := p.2 / 3 * 3
    ⟨monthStart p.1 qs, monthEnd p.1 (qs + 2)⟩
  | .year => ⟨⟨selYear, 0, 1, 0, 0, 0, 0⟩, ⟨selYear, 11, 31, 23, 59, 59, 0⟩⟩

/-- ASCII lowering, the fragment of `toLowerCase()` relevant to matching the
ASCII keyword `"amortization"`. -/
def lowerChar (c : Char) : Char :=
  if 65 ≤ c.toNat ∧ c.toNat ≤ 90 then Char.ofNat (c.toNat + 32) else c

def lowerStr (s : String) : List Char := s.data.map lowerChar

def prefMatch : List Char → List Char → Bool
  | [], _ => true
  | _ :: _, [] => false
  | a :: as, b :: bs => a == b && prefMatch as bs

/-- Contiguous-substring test, i.e. `String.prototype.includes`. -/
def subMatch (pat : List Char) : List Char → Bool
  | [] => prefMatch pat []
  | b :: bs => prefMatch pat (b :: bs) || subMatch pat bs

/-- `s.toLowerCase().includes('amortization')`. -/
def classAmort (s : String) : Bool := subMatch ("amortization".data) (lowerStr s)

/-- A raw amount field (`sales`, an expense-line `amount`, a service `cost`):
absent, a number, a numeric string (with its parsed value), or a non-numeric
string. -/
inductive RawAmount
  | missing
  | num (q : ℚ)
  | strNum (q : ℚ)
  | strBad
  deriving DecidableEq, Repr

/-- `Number(x || 0)`: an absent field takes the `|| 0` default; a number or a
numeric string gives its value; a non-numeric string gives `NaN`. -/
def toNum : RawAmount → QNaN
  | .missing => some 0
  | .num q => some q
  | .strNum q => some q
  | .strBad => none

/-- A raw date field: a Firestore timestamp (always a valid instant) or a
string, which parses to a valid date or does not (`new Date(s)` / `parseISO`
give an invalid date, modelled `none`). -/
inductive RawDate
  | ts (d : SDateTime)
  | str (od : Option SDateTime)
  deriving DecidableEq, Repr

def resolveDate : RawDate → Option SDateTime
  | .ts d => some d
  | .str od => od

/-- One entry of `availableVehicles` (`label` = display name, `value` = id). -/
structure Vehicle where
  label : String
  value : String
  deriving DecidableEq, Repr

structure Expense where
  category : Option String
  amount : RawAmount
  deriving DecidableEq, Repr

/-- A raw document of the `finances` collection. -/
structure FinanceData where
  vehicleId : String
  sales : RawAmount
  expenses : Option (List Expense)
  date : RawDate
  isDayOff : Bool
  deriving DecidableEq, Repr

/-- A raw document of a vehicle's `service_history` subcollection. -/
structure ServiceData where
  date : RawDate
  description : Option String
  cost : RawAmount
  deriving DecidableEq, Repr

inductive LogType
  | daily
  | service
  deriving DecidableEq, Repr

structure LogEntry where
  date : SDateTime
  vehicleId : String
  vehicleLabel : String
  type : LogType
  income : QNaN
  expenses : QNaN
  description : String
  deriving DecidableEq, Repr

structure SummaryDetail where
  income : QNaN
  expenses : QNaN
  deriving DecidableEq, Repr

/-- The inputs of one `fetchSummaryData` run (`now` is the value the source
reads with `new Date()` at the top of the run). -/
structure Env where
  availableVehicles : List Vehicle
  vehicleFilter : String
  selectedYear : Int
  selectedMonth : Nat
  selectedQuarter : Nat
  summaryView : View
  includeAmortization : Bool
  finances : List FinanceData
  service : String → List ServiceData
  now : SDateTime

/-- `if (!detailTracker[k]) detailTracker[k] = {income: 0, expenses: 0}`. -/
def detEnsure : List (String × SummaryDetail) → String → List (String × SummaryDetail)
  | [], k => [(k, ⟨some 0, some 0⟩)]
  | (k', v) :: rest, k =>
    if k' = k then (k', v) :: rest else (k', v) :: detEnsure rest k

/-- `detailTracker[k].income += i; detailTracker[k].expenses += e`. -/
def detAdd : List (String × SummaryDetail) → String → QNaN → QNaN → List (String × SummaryDetail)
  | [], k, i, e => [(k, ⟨nadd (some 0) i, nadd (some 0) e⟩)]
  | (k', v) :: rest, k, i, e =>
    if k' = k then (k', ⟨nadd v.income i, nadd v.expenses e⟩) :: rest
    else (k', v) :: detAdd rest k i e

def trkPut : List (String × Finset ℕ) → String → Finset ℕ → List (String × Finset ℕ)
  | [], k, s => [(k, s)]
  | (k', s') :: rest, k, s =>
    if k' = k then (k, s) :: rest else (k', s') :: trkPut rest k s

/-- `vehiclesToCheck.forEach(v => tracker[v.value] = new Set())`. -/
def trkInit (vs : List Vehicle) : List (String × Finset ℕ) :=
  vs.foldl (fun m v => trkPut m v.value ∅) []

def trkHasKey : List (String × Finset ℕ) → String → Bool
  | [], _ => false
  | p :: rest, k => p.1 == k || trkHasKey rest k

def trkGet : List (String × Finset ℕ) → String → Finset ℕ
  | [], _ => ∅
  | p :: rest, k => if p.1 = k then p.2 else trkGet rest k

/-- `tracker[k].add(d)` (the source only calls it when the key exists). -/
def trkAdd (m : List (String × Finset ℕ)) (k : String) (d : ℕ) :
    List (String × Finset ℕ) :=
  m.map (fun p => if p.1 = k then (p.1, insert d p.2) else p)

/-- `availableVehicles.find(v => v.value == vid)?.label || 'Unknown'`. -/
def entityLabel (vs : List Vehicle) (vid : String) : String :=
  match vs.find? (fun v => v.value == vid) with
  | some v => if v.label = "" then "Unknown" else v.label
  | none => "Unknown"

def monthNames : List String :=
  ["January", "February", "March", "April", "May", "June", "July", "August",
   "September", "October", "November", "December"]

def monthName (m : Nat) : String := monthNames.getD m "undefined"

/-- `summaryView === 'month' ? (vInfo?.label || 'Unknown') : months[d.getMonth()]`. -/
def groupKeyOf (view : View) (vs : List Vehicle) (vid : String) (d : SDateTime) :
    String :=
  if view = .month then entityLabel vs vid else monthName d.month

def strOrEmpty (o : Option String) : String := o.getD ""

/-- `x || dflt` on an optional string (an empty string is falsy). -/
def strOrDefault (o : Option String) (dflt : String) : String :=
  match o with
  | some s => if s = "" then dflt else s
  | none => dflt

/-- The `expAmt` accumulation of one finance record: each expense line is
added unless its category contains `amortization` (case-insensitively) and
the amortization toggle is off. -/
def finExpAmt (includeAmortization : Bool) (d : FinanceData) : QNaN :=
  match d.expenses with
  | none => some 0
  | some lines =>
    lines.foldl
      (fun acc e =>
        if classAmort (strOrEmpty e.category) && !includeAmortization then acc
        else nadd acc (toNum e.amount))
      (some 0)

/-- The mutable state of one `fetchSummaryData` run. -/
structure AggState where
  totalInc : QNaN
  totalExp : QNaN
  details : List (String × SummaryDetail)
  logs : List LogEntry
  records : List (String × Finset ℕ)
  dayOff : List (String × Finset ℕ)

/-- The in-interval part of the `financeSnap.forEach` body, applied to the
already-resolved date `dd`. -/
def finStepGo (env : Env) (itv : Interval) (st : AggState) (d : FinanceData)
    (dd : SDateTime) : AggState :=
  if inInterval itv dd then
      let groupKey := groupKeyOf env.summaryView env.availableVehicles d.vehicleId dd
      let det1 := detEnsure st.details groupKey
      let dayNum := dd.day
      let trackers :=
        if trkHasKey st.records d.vehicleId then
          if d.isDayOff then (st.records, trkAdd st.dayOff d.vehicleId dayNum)
          else (trkAdd st.records d.vehicleId dayNum, st.dayOff)
        else (st.records, st.dayOff)
      let incAmt := toNum d.sales
      let expAmt := finExpAmt env.includeAmortization d
      let entry : LogEntry :=
        { date := dd, vehicleId := d.vehicleId,
          vehicleLabel := entityLabel env.availableVehicles d.vehicleId,
          type := .daily, income := incAmt, expenses := expAmt,
          description := if d.isDayOff then "Day Off" else "Daily Sales" }
      { totalInc := nadd st.totalInc incAmt
        totalExp := nadd st.totalExp expAmt
        details := detAdd det1 groupKey incAmt expAmt
        logs := st.logs ++ [entry]
        records := trackers.1
        dayOff := trackers.2 }
    else st

/-- The body of `financeSnap.forEach` in `fetchSummaryData`. -/
def finStep (env : Env) (itv : Interval) (st : AggState) (d : FinanceData) :
    AggState :=
  match resolveDate d.date with
  | none => st
  | some dd => finStepGo env itv st d dd

/-- The in-interval part of the `sSnap.forEach` body, applied to the
already-resolved date `sd`. -/
def svcStepGo (env : Env) (itv : Interval) (vid : String) (st : AggState)
    (s : ServiceData) (sd : SDateTime) : AggState :=
  if inInterval itv sd then
      let groupKey := groupKeyOf env.summaryView env.availableVehicles vid sd
      let det1 := detEnsure st.details groupKey
      if classAmort (strOrEmpty s.description) && !env.includeAmortization then
        { st with details := det1 }
      else
        let cost := toNum s.cost
        let entry : LogEntry :=
          { date := sd, vehicleId := vid,
            vehicleLabel := entityLabel env.availableVehicles vid,
            type := .service, income := some 0, expenses := cost,
            description := strOrDefault s.description "Repair/Service" }
        { st with
          totalExp := nadd st.totalExp cost
          details := detAdd det1 groupKey (some 0) cost
          logs := st.logs ++ [entry] }
    else st

/-- The body of `sSnap.forEach` in `fetchSummaryData` (service history of
vehicle `vid`).  Note the group entry is created before the amortization
skip; the skipped entry then adds nothing (the source only does
`.expenses += cost`, modelled as also adding `0` income, which is the same
value). -/
def svcStep (env : Env) (itv : Interval) (vid : String) (st : AggState)
    (s : ServiceData) : AggState :=
  match resolveDate s.date with
  | none => st
  | some sd => svcStepGo env itv vid st s sd

/-- `availableVehicles.filter(v => v.value !== 'all')`. -/
def vehiclesToCheck (env : Env) : List Vehicle :=
  env.availableVehicles.filter (fun v => v.value != "all")

/-- The `finances` query: a `where('vehicleId','==',filter)` clause unless the
filter is `'all'`. -/
def financesInScope (env : Env) : List FinanceData :=
  if env.vehicleFilter = "all" then env.finances
  else env.finances.filter (fun d => d.vehicleId == env.vehicleFilter)

/-- The vehicle ids whose service history is read. -/
def vIdsOf (env : Env) : List String :=
  if env.vehicleFilter = "all" then (vehiclesToCheck env).map (fun v => v.value)
  else [env.vehicleFilter]

def ivOf (env : Env) : Interval :=
  resolveInterval env.summaryView env.selectedYear env.selectedMonth
    env.selectedQuarter

def initState (env : Env) : AggState :=
  { totalInc := some 0, totalExp := some 0, details := [], logs := [],
    records := trkInit (vehiclesToCheck env),
    dayOff := trkInit (vehiclesToCheck env) }

/-- Sections 1 (daily finances) and 2 (service history) of
`fetchSummaryData`. -/
def runAgg (env : Env) : AggState :=
  let st1 := (financesInScope env).foldl (finStep env (ivOf env)) (initState env)
  (vIdsOf env).foldl
    (fun st vid => (env.service vid).foldl (svcStep env (ivOf env) vid) st) st1

/-- `isCurrentMonthSelection ? now.getDate() : interval.end.getDate()`. -/
def lastDayToCheck (env : Env) : Nat :=
  if env.selectedMonth = env.now.month ∧ env.selectedYear = env.now.year then
    env.now.day
  else (ivOf env).endD.day

/-- The `missing` array built for one vehicle id: the days `1..lastDay` with
neither a plain record nor a day-off record. -/
def missingFor (lastDay : Nat) (rt dt : List (String × Finset ℕ)) (vid : String) :
    List Nat :=
  (List.range' 1 lastDay).filter
    (fun i => decide (i ∉ trkGet rt vid) && decide (i ∉ trkGet dt vid))

/-- The missing-day list computed for vehicle `v` in a run over `env`. -/
def entityMissing (env : Env) (v : Vehicle) : List Nat :=
  missingFor (lastDayToCheck env) (runAgg env).records (runAgg env).dayOff v.value

def gapPut : List (String × List Nat) → String → List Nat → List (String × List Nat)
  | [], k, l => [(k, l)]
  | (k', l') :: rest, k, l =>
    if k' = k then (k, l) :: rest else (k', l') :: gapPut rest k l

/-- The body of the gap loop for one vehicle: skip it if cut off by the
filter; otherwise store its non-empty missing list under its `label`. -/
def gapStep (env : Env) (g : List (String × List Nat)) (v : Vehicle) :
    List (String × List Nat) :=
  if env.vehicleFilter ≠ "all" ∧ v.value ≠ env.vehicleFilter then g
  else
    let missing := entityMissing env v
    if missing = [] then g else gapPut g v.label missing

/-- Section 3 (missing-days logic) of `fetchSummaryData`: only in month view;
skips vehicles cut off by the filter; stores a vehicle's list under its
`label`, and only when it is non-empty. -/
def computeGaps (env : Env) : List (String × List Nat) :=
  if env.summaryView = .month then
    (vehiclesToCheck env).foldl (gapStep env) []
  else []

/-- The states set at the end of `fetchSummaryData`. -/
structure Summary where
  income : QNaN
  expenses : QNaN
  net : QNaN
  details : List (String × SummaryDetail)
  rawLogs : List LogEntry
  missingDays : List (String × List Nat)
  deriving DecidableEq

def fetchSummaryData (env : Env) : Summary :=
  let st := runAgg env
  { income := st.totalInc, expenses := st.totalExp,
    net := nsub st.totalInc st.totalExp,
    details := st.details, rawLogs := st.logs,
    missingDays := computeGaps env }

/-- Stable insertion (descending by date) used to model
`sort((a, b) => b.date.getTime() - a.date.getTime())`. -/
def insLog : List LogEntry → LogEntry → List LogEntry
  | [], l => [l]
  | x :: xs, l =>
    if dateLe l.date x.date then x :: insLog xs l else l :: x :: xs

def sortDateDesc (ls : List LogEntry) : List LogEntry := ls.foldl insLog []

/-- `handleDrillDown`: filter the retained logs by group key (vehicle label in
month view, month name otherwise) and sort by date descending. -/
def handleDrillDown (env : Env) (rawLogs : List LogEntry) (groupKey : String) :
    List LogEntry :=
  let filtered :=
    if env.summaryView = .month then
      rawLogs.filter (fun l => l.vehicleLabel == groupKey)
    else rawLogs.filter (fun l => monthName l.date.month == groupKey)
  sortDateDesc filtered

/-! The write path of `app/(tabs)/finances.tsx`.  `handleSave` writes each
weekly record with `setDoc(doc(db, 'finances', vehicleId + '_' + dateKey),
{...record, vehicleId, date: dateKey, ...}, {merge: true})`; the spread
writes every field of the record, so a save determines the stored record for
its document id. -/

def docId (vid dateKey : String) : String := vid ++ "_" ++ dateKey

def storePut {α : Type} : List (String × α) → String → α → List (String × α)
  | [], k, r => [(k, r)]
  | (k', r') :: rest, k, r =>
    if k' = k then (k, r) :: rest else (k', r') :: storePut rest k r

def storeGet {α : Type} : List (String × α) → String → Option α
  | [], _ => none
  | p :: rest, k => if p.1 = k then some p.2 else storeGet rest k

/-- `handleSave` over a batch of `(dateKey, record)` writes. -/
def handleSave {α : Type} (store : List (String × α)) (vid : String)
    (batch : List (String × α)) : List (String × α) :=
  batch.foldl (fun st p => storePut st (docId vid p.1) p.2) store

/-- The last record a batch carries for a given date key. -/
def lastFor {α : Type} : List (String × α) → String → Option α
  | [], _ => none
  | (dk', r') :: rest, dk =>
    match lastFor rest dk with
    | some r => some r
    | none => if dk' = dk then some r' else none

/-! ### Arithmetic of possibly-`NaN` sums -/

/-! ### Verification-side definitions and concrete run inputs -/

/-- Income summed over all groups of a detail map. -/
def sumInc : List (String × SummaryDetail) → QNaN
  | [] => some 0
  | p :: rest => nadd p.2.income (sumInc rest)

/-- Expenses summed over all groups of a detail map. -/
def sumExp : List (String × SummaryDetail) → QNaN
  | [] => some 0
  | p :: rest => nadd p.2.expenses (sumExp rest)

/-- The conservation invariant: the running totals equal the group sums. -/
def consInv (st : AggState) : Prop :=
  st.totalInc = sumInc st.details ∧ st.totalExp = sumExp st.details

/-- A run with the amortization toggle off and a single in-period service
entry classified as amortization ("Amortization payment", cost 1500) for the
only tracked vehicle. -/
def envZeroGroup : Env :=
  { availableVehicles := [⟨"All Units", "all"⟩, ⟨"Truck A", "v1"⟩],
    vehicleFilter := "all", selectedYear := 2025, selectedMonth := 2,
    selectedQuarter := 0, summaryView := .month, includeAmortization := false,
    finances := [],
    service := fun vid =>
      if vid = "v1" then
        [⟨.str (some ⟨2025, 2, 10, 0, 0, 0, 0⟩), some "Amortization payment",
          .num 1500⟩]
      else [],
    now := ⟨2025, 2, 15, 12, 0, 0, 0⟩ }

def storeKeys {α : Type} (s : List (String × α)) : List String := s.map Prod.fst

/-- A month-mode run over the current month (`now` = 2025-03-03) with one
tracked vehicle (id `"v1"`, label `"Truck A"`) and no records at all. -/
def envGapKey : Env :=
  { availableVehicles := [⟨"All Units", "all"⟩, ⟨"Truck A", "v1"⟩],
    vehicleFilter := "all", selectedYear := 2025, selectedMonth := 2,
    selectedQuarter := 0, summaryView := .month, includeAmortization := true,
    finances := [], service := fun _ => [], now := ⟨2025, 2, 3, 8, 0, 0, 0⟩ }

/-- A well-formed finance record for `envGapKey`'s vehicle. -/
def goodRec : FinanceData :=
  ⟨"v1", .num 500, none, .str (some ⟨2025, 2, 1, 0, 0, 0, 0⟩), false⟩

/-- A record whose date string (`"not-a-date"`) fails to parse. -/
def badRec : FinanceData :=
  ⟨"v1", .num 999, none, .str none, false⟩

/-- A well-formed service entry for `envGapKey`'s vehicle. -/
def goodSvc : ServiceData :=
  ⟨.str (some ⟨2025, 2, 2, 0, 0, 0, 0⟩), some "Oil change", .num 300⟩

/-- A service entry whose date string fails to parse. -/
def badSvc : ServiceData :=
  ⟨.str none, some "Mystery", .num 777⟩

/-- `env` with the service history of vehicle `vid0` replaced by `l`. -/
def envWithSvc (env : Env) (vid0 : String) (l : List ServiceData) : Env :=
  { env with service := fun vid => if vid = vid0 then l else env.service vid }

/-- Day `day` of vehicle `vid` is covered by one of the two trackers. -/
def covered (st : AggState) (vid : String) (day : ℕ) : Prop :=
  day ∈ trkGet st.records vid ∨ day ∈ trkGet st.dayOff vid

/-- A structurally valid calendar instant (the only values a successfully
parsed JS `Date` takes). -/
def validDate (d : SDateTime) : Prop :=
  d.month ≤ 11 ∧ 1 ≤ d.day ∧ d.day ≤ daysInMonth d.year d.month ∧
  d.hour ≤ 23 ∧ d.minute ≤ 59 ∧ d.second ≤ 59 ∧ d.ms ≤ 999

instance (d : SDateTime) : Decidable (validDate d) := by
  unfold validDate; exact inferInstance

/-- A run whose first retained record has a non-numeric `sales` string and
whose second has numeric sales 100. -/
def envBadAmount : Env :=
  { envGapKey with finances :=
      [⟨"v1", .strBad, none, .str (some ⟨2025, 2, 5, 0, 0, 0, 0⟩), false⟩,
       ⟨"v1", .num 100, none, .str (some ⟨2025, 2, 6, 0, 0, 0, 0⟩), false⟩] }

/-- The same run without the non-numeric record. -/
def envNoBadAmount : Env :=
  { envGapKey with finances :=
      [⟨"v1", .num 100, none, .str (some ⟨2025, 2, 6, 0, 0, 0, 0⟩), false⟩] }

/-- Replace an *absent* amount by the literal number `0`. -/
def zeroiseAmt : RawAmount → RawAmount
  | .missing => .num 0
  | a => a

def zeroiseExpense (e : Expense) : Expense := ⟨e.category, zeroiseAmt e.amount⟩

def zeroiseFin (d : FinanceData) : FinanceData :=
  { d with sales := zeroiseAmt d.sales,
           expenses := d.expenses.map (fun l => l.map zeroiseExpense) }

def zeroiseSvc (s : ServiceData) : ServiceData := { s with cost := zeroiseAmt s.cost }

/-- The same run with every absent amount field replaced by `0`. -/
def zeroiseEnv (env : Env) : Env :=
  { env with finances := env.finances.map zeroiseFin,
             service := fun vid => (env.service vid).map zeroiseSvc }

/-- `NaN`-propagating sum of a list. -/
def qsum : List QNaN → QNaN
  | [] => some 0
  | x :: rest => nadd x (qsum rest)

/-- What one expense line adds to `expAmt`. -/
def lineContrib (incAm : Bool) (e : Expense) : QNaN :=
  if classAmort (strOrEmpty e.category) && !incAm then some 0 else toNum e.amount

/-- What one finance record adds to `totalExp`. -/
def finExpContrib (incAm : Bool) (itv : Interval) (d : FinanceData) : QNaN :=
  match resolveDate d.date with
  | none => some 0
  | some dd => if inInterval itv dd then finExpAmt incAm d else some 0

/-- What one service entry adds to `totalExp`. -/
def svcExpContrib (incAm : Bool) (itv : Interval) (s : ServiceData) : QNaN :=
  match resolveDate s.date with
  | none => some 0
  | some sd =>
    if inInterval itv sd then
      if classAmort (strOrEmpty s.description) && !incAm then some 0 else toNum s.cost
    else some 0

/-- The amount field parses and is non-negative. -/
def okAmtB (a : RawAmount) : Bool :=
  match toNum a with
  | none => false
  | some q => decide (0 ≤ q)

def finOkB (d : FinanceData) : Bool :=
  match d.expenses with
  | none => true
  | some lines => lines.all (fun e => okAmtB e.amount)

def svcOkB (s : ServiceData) : Bool := okAmtB s.cost

/-- The record's date parses and falls inside the interval. -/
def inScopeB (itv : Interval) (rd : RawDate) : Bool :=
  match resolveDate rd with
  | none => false
  | some dd => decide (inInterval itv dd)

/-- An amortization-classified line carries amount `0` (non-amortization
lines are unconstrained). -/
def amortLineZeroB (e : Expense) : Bool :=
  !(classAmort (strOrEmpty e.category)) || decide (toNum e.amount = some 0)

def amortZeroFB (d : FinanceData) : Bool :=
  match d.expenses with
  | none => true
  | some lines => lines.all amortLineZeroB

def amortZeroSB (s : ServiceData) : Bool :=
  !(classAmort (strOrEmpty s.description)) || decide (toNum s.cost = some 0)

/-- A run with a single amortization-classified expense line of amount −1. -/
def envAmortNeg : Env :=
  { envGapKey with finances :=
      [⟨"v1", .num 0, some [⟨some "Amortization", .num (-1)⟩],
        .str (some ⟨2025, 2, 5, 0, 0, 0, 0⟩), false⟩] }

/-- A run with an amortization line of amount 5 and a plain line of 10. -/
def envAmortPos : Env :=
  { envGapKey with finances :=
      [⟨"v1", .num 0, some [⟨some "Amortization fee", .num 5⟩,
        ⟨some "Gas", .num 10⟩], .str (some ⟨2025, 2, 5, 0, 0, 0, 0⟩), false⟩] }

/-! ### Theorems -/

theorem nadd_zero (x : QNaN) : nadd x (some 0) = x := by
  cases x <;> simp [nadd]

theorem zero_nadd (x : QNaN) : nadd (some 0) x = x := by
  cases x <;> simp [nadd]

theorem nadd_assoc (a b c : QNaN) : nadd (nadd a b) c = nadd a (nadd b c) := by
  cases a <;> cases b <;> cases c <;> simp [nadd, add_assoc]

theorem nadd_comm (a b : QNaN) : nadd a b = nadd b a := by
  cases a <;> cases b <;> simp [nadd, add_comm]

theorem nadd_right_comm (a b c : QNaN) : nadd (nadd a b) c = nadd (nadd a c) b := by
  rw [nadd_assoc, nadd_assoc, nadd_comm b c]

theorem sumInc_detEnsure (m : List (String × SummaryDetail)) (k : String) :
    sumInc (detEnsure m k) = sumInc m := by
  induction m with
  | nil => simp [detEnsure, sumInc, nadd]
  | cons p rest ih =>
    by_cases h : p.1 = k
    · simp [detEnsure, h, sumInc]
    · simp [detEnsure, h, sumInc, ih]

theorem sumExp_detEnsure (m : List (String × SummaryDetail)) (k : String) :
    sumExp (detEnsure m k) = sumExp m := by
  induction m with
  | nil => simp [detEnsure, sumExp, nadd]
  | cons p rest ih =>
    by_cases h : p.1 = k
    · simp [detEnsure, h, sumExp]
    · simp [detEnsure, h, sumExp, ih]

theorem sumInc_detAdd (m : List (String × SummaryDetail)) (k : String) (i e : QNaN) :
    sumInc (detAdd m k i e) = nadd (sumInc m) i := by
  induction m with
  | nil => simp [detAdd, sumInc, nadd_zero, zero_nadd]
  | cons p rest ih =>
    by_cases h : p.1 = k
    · simp [detAdd, h, sumInc, nadd_right_comm]
    · simp [detAdd, h, sumInc, ih, nadd_assoc]

theorem sumExp_detAdd (m : List (String × SummaryDetail)) (k : String) (i e : QNaN) :
    sumExp (detAdd m k i e) = nadd (sumExp m) e := by
  induction m with
  | nil => simp [detAdd, sumExp, nadd_zero, zero_nadd]
  | cons p rest ih =>
    by_cases h : p.1 = k
    · simp [detAdd, h, sumExp, nadd_right_comm]
    · simp [detAdd, h, sumExp, ih, nadd_assoc]

theorem consInv_finStepGo (env : Env) (itv : Interval) (st : AggState)
    (d : FinanceData) (dd : SDateTime) (h : consInv st) :
    consInv (finStepGo env itv st d dd) := by
  unfold finStepGo
  by_cases hin : inInterval itv dd
  · rw [if_pos hin]
    exact ⟨by simp [sumInc_detAdd, sumInc_detEnsure, h.1],
           by simp [sumExp_detAdd, sumExp_detEnsure, h.2]⟩
  · rw [if_neg hin]; exact h

theorem consInv_finStep (env : Env) (itv : Interval) (st : AggState)
    (d : FinanceData) (h : consInv st) : consInv (finStep env itv st d) := by
  unfold finStep
  cases resolveDate d.date with
  | none => exact h
  | some dd => exact consInv_finStepGo env itv st d dd h

theorem consInv_svcStepGo (env : Env) (itv : Interval) (vid : String)
    (st : AggState) (s : ServiceData) (sd : SDateTime) (h : consInv st) :
    consInv (svcStepGo env itv vid st s sd) := by
  unfold svcStepGo
  by_cases hin : inInterval itv sd
  · rw [if_pos hin]
    by_cases hskip :
        (classAmort (strOrEmpty s.description) && !env.includeAmortization) = true
    · rw [if_pos hskip]
      exact ⟨by simp [sumInc_detEnsure, h.1], by simp [sumExp_detEnsure, h.2]⟩
    · rw [if_neg hskip]
      exact ⟨by simp [sumInc_detAdd, sumInc_detEnsure, nadd_zero, h.1],
             by simp [sumExp_detAdd, sumExp_detEnsure, h.2]⟩
  · rw [if_neg hin]; exact h

theorem consInv_svcStep (env : Env) (itv : Interval) (vid : String)
    (st : AggState) (s : ServiceData) (h : consInv st) :
    consInv (svcStep env itv vid st s) := by
  unfold svcStep
  cases resolveDate s.date with
  | none => exact h
  | some sd => exact consInv_svcStepGo env itv vid st s sd h

theorem consInv_foldl {β : Type} (f : AggState → β → AggState)
    (hf : ∀ st b, consInv st → consInv (f st b)) :
    ∀ (l : List β) (st : AggState), consInv st → consInv (l.foldl f st) := by
  intro l
  induction l with
  | nil => intro st h; exact h
  | cons b rest ih => intro st h; exact ih (f st b) (hf st b h)

theorem consInv_runAgg (env : Env) : consInv (runAgg env) := by
  unfold runAgg
  refine consInv_foldl _ ?_ _ _ ?_
  · intro st vid h
    exact consInv_foldl _ (fun st' s h' => consInv_svcStep env (ivOf env) vid st' s h') _ _ h
  · refine consInv_foldl _ ?_ _ _ ?_
    · intro st d h; exact consInv_finStep env (ivOf env) st d h
    · exact ⟨rfl, rfl⟩

/-- **C1** (Conservation): for every aggregation run — any event collection,
period, `includeAmortization` flag and entity filter — the total income
equals the sum of the per-group incomes, and the total expenses equal the
sum of the per-group expenses: grouping partitions the in-scope events. -/
theorem c1_conservation (env : Env) :
    (fetchSummaryData env).income = sumInc (fetchSummaryData env).details ∧
    (fetchSummaryData env).expenses = sumExp (fetchSummaryData env).details :=
  consInv_runAgg env

/-! ### C10: a filtered-out amortization service entry still creates its group -/

/-- **C10** (implicit): with `includeAmortization = false`, an in-period
service entry classified as amortization still creates its group key (with
income 0 and expenses 0) before being skipped, while being omitted from the
drill-down log list: the groups map can hold a key with zero totals whose
drill-down sequence is empty. -/
theorem c10_zero_group_from_filtered_service :
    (fetchSummaryData envZeroGroup).details = [("Truck A", ⟨some 0, some 0⟩)] ∧
    (fetchSummaryData envZeroGroup).rawLogs = [] ∧
    (fetchSummaryData envZeroGroup).expenses = some 0 ∧
    handleDrillDown envZeroGroup (fetchSummaryData envZeroGroup).rawLogs
      "Truck A" = [] :=
  ⟨rfl, rfl, rfl, rfl⟩

/-! ### C5: a record whose date does not parse is dropped, nothing aborts -/

theorem finStep_invalidDate (env : Env) (itv : Interval) (st : AggState)
    (d : FinanceData) (h : resolveDate d.date = none) :
    finStep env itv st d = st := by
  unfold finStep; rw [h]

theorem foldl_finStep_skipsInvalid (env : Env) (itv : Interval) (st : AggState)
    (pre post : List FinanceData) (bad : FinanceData)
    (hbad : resolveDate bad.date = none) :
    (pre ++ bad :: post).foldl (finStep env itv) st =
      (pre ++ post).foldl (finStep env itv) st := by
  rw [List.foldl_append, List.foldl_append, List.foldl_cons,
    finStep_invalidDate env itv _ bad hbad]

theorem svcStep_invalidDate (env : Env) (itv : Interval) (vid : String)
    (st : AggState) (s : ServiceData) (h : resolveDate s.date = none) :
    svcStep env itv vid st s = st := by
  unfold svcStep; rw [h]

theorem foldl_svcStep_skipsInvalid (env : Env) (itv : Interval) (vid : String)
    (st : AggState) (spre spost : List ServiceData) (sbad : ServiceData)
    (hsbad : resolveDate sbad.date = none) :
    (spre ++ sbad :: spost).foldl (svcStep env itv vid) st =
      (spre ++ spost).foldl (svcStep env itv vid) st := by
  rw [List.foldl_append, List.foldl_append, List.foldl_cons,
    svcStep_invalidDate env itv vid _ sbad hsbad]

/-- **C5** (Malformed-date handling): a record whose date fails to parse to a
valid calendar date — a daily-finance record or a service-history entry —
is excluded from totals, groups, logs and gap tracking entirely, and the
remaining records are aggregated exactly as if it were absent.  (The
embedded aggregation is a total function, so no run can throw or abort the
batch.) -/
theorem c5_malformed_date_dropped (env : Env) (pre post : List FinanceData)
    (bad : FinanceData) (vid0 : String) (spre spost : List ServiceData)
    (sbad : ServiceData) (hbad : resolveDate bad.date = none)
    (hsbad : resolveDate sbad.date = none) :
    (fetchSummaryData { env with finances := pre ++ bad :: post } =
       fetchSummaryData { env with finances := pre ++ post }) ∧
    (fetchSummaryData (envWithSvc env vid0 (spre ++ sbad :: spost)) =
       fetchSummaryData (envWithSvc env vid0 (spre ++ spost))) := by
  constructor
  swap
  · have hrun : runAgg (envWithSvc env vid0 (spre ++ sbad :: spost)) =
        runAgg (envWithSvc env vid0 (spre ++ spost)) := by
      unfold runAgg
      have houter : ∀ (vids : List String) (st : AggState),
          vids.foldl (fun st vid =>
            ((envWithSvc env vid0 (spre ++ sbad :: spost)).service vid).foldl
              (svcStep (envWithSvc env vid0 (spre ++ sbad :: spost))
                (ivOf (envWithSvc env vid0 (spre ++ sbad :: spost))) vid) st) st =
          vids.foldl (fun st vid =>
            ((envWithSvc env vid0 (spre ++ spost)).service vid).foldl
              (svcStep (envWithSvc env vid0 (spre ++ spost))
                (ivOf (envWithSvc env vid0 (spre ++ spost))) vid) st) st := by
        intro vids
        induction vids with
        | nil => intro st; rfl
        | cons vid rest ih =>
          intro st
          rw [List.foldl_cons, List.foldl_cons]
          have hone :
              ((envWithSvc env vid0 (spre ++ sbad :: spost)).service vid).foldl
                (svcStep (envWithSvc env vid0 (spre ++ sbad :: spost))
                  (ivOf (envWithSvc env vid0 (spre ++ sbad :: spost))) vid) st =
              ((envWithSvc env vid0 (spre ++ spost)).service vid).foldl
                (svcStep (envWithSvc env vid0 (spre ++ spost))
                  (ivOf (envWithSvc env vid0 (spre ++ spost))) vid) st := by
            by_cases hv : vid = vid0
            · show (if vid = vid0 then spre ++ sbad :: spost
                    else env.service vid).foldl
                  (svcStep (envWithSvc env vid0 (spre ++ sbad :: spost))
                    (ivOf (envWithSvc env vid0 (spre ++ sbad :: spost))) vid) st =
                (if vid = vid0 then spre ++ spost else env.service vid).foldl
                  (svcStep (envWithSvc env vid0 (spre ++ spost))
                    (ivOf (envWithSvc env vid0 (spre ++ spost))) vid) st
              rw [if_pos hv, if_pos hv]
              exact foldl_svcStep_skipsInvalid
                (envWithSvc env vid0 (spre ++ sbad :: spost))
                (ivOf (envWithSvc env vid0 (spre ++ sbad :: spost))) vid st
                spre spost sbad hsbad
            · show (if vid = vid0 then spre ++ sbad :: spost
                    else env.service vid).foldl
                  (svcStep (envWithSvc env vid0 (spre ++ sbad :: spost))
                    (ivOf (envWithSvc env vid0 (spre ++ sbad :: spost))) vid) st =
                (if vid = vid0 then spre ++ spost else env.service vid).foldl
                  (svcStep (envWithSvc env vid0 (spre ++ spost))
                    (ivOf (envWithSvc env vid0 (spre ++ spost))) vid) st
              rw [if_neg hv, if_neg hv]
              rfl
          rw [hone]
          exact ih _
      exact houter _ _
    unfold fetchSummaryData computeGaps gapStep entityMissing
    rw [hrun]
    rfl
  have hrun : runAgg { env with finances := pre ++ bad :: post } =
      runAgg { env with finances := pre ++ post } := by
    unfold runAgg
    have hst :
        (financesInScope { env with finances := pre ++ bad :: post }).foldl
            (finStep { env with finances := pre ++ bad :: post }
              (ivOf { env with finances := pre ++ bad :: post }))
            (initState { env with finances := pre ++ bad :: post }) =
          (financesInScope { env with finances := pre ++ post }).foldl
            (finStep { env with finances := pre ++ post }
              (ivOf { env with finances := pre ++ post }))
            (initState { env with finances := pre ++ post }) := by
      by_cases hall : env.vehicleFilter = "all"
      · show (if env.vehicleFilter = "all" then pre ++ bad :: post else _).foldl _ _ =
          (if env.vehicleFilter = "all" then pre ++ post else _).foldl _ _
        rw [if_pos hall, if_pos hall]
        exact foldl_finStep_skipsInvalid _ _ _ pre post bad hbad
      · show (if env.vehicleFilter = "all" then _
              else (pre ++ bad :: post).filter
                (fun d => d.vehicleId == env.vehicleFilter)).foldl _ _ =
          (if env.vehicleFilter = "all" then _
              else (pre ++ post).filter
                (fun d => d.vehicleId == env.vehicleFilter)).foldl _ _
        rw [if_neg hall, if_neg hall, List.filter_append, List.filter_append,
          List.filter_cons]
        by_cases hb : (bad.vehicleId == env.vehicleFilter) = true
        · simp only [hb, if_pos]
          exact foldl_finStep_skipsInvalid _ _ _ _ _ bad hbad
        · simp only [hb]
          rfl
    rw [hst]
    rfl
  unfold fetchSummaryData computeGaps gapStep entityMissing
  rw [hrun]
  rfl

/-! ### C7: duplicate saves for one (entityId, date) overwrite, never sum -/

theorem storeGet_storePut_self {α : Type} (s : List (String × α)) (k : String)
    (r : α) : storeGet (storePut s k r) k = some r := by
  induction s with
  | nil => simp [storePut, storeGet]
  | cons p rest ih =>
    by_cases h : p.1 = k
    · simp [storePut, h, storeGet]
    · simp [storePut, h, storeGet, ih]

theorem storeGet_storePut_other {α : Type} (s : List (String × α)) (k k' : String)
    (r : α) (hne : k' ≠ k) : storeGet (storePut s k r) k' = storeGet s k' := by
  induction s with
  | nil => simp [storePut, storeGet, Ne.symm hne]
  | cons p rest ih =>
    by_cases h : p.1 = k
    · have hpk' : ¬(p.1 = k') := fun hc => hne (hc ▸ h ▸ rfl)
      simp [storePut, h, storeGet, Ne.symm hne, hpk', h ▸ hpk']
    · by_cases h' : p.1 = k'
      · simp [storePut, h, storeGet, h', hne]
      · simp [storePut, h, storeGet, h', ih]

theorem mem_storeKeys_storePut {α : Type} (s : List (String × α)) (k x : String)
    (r : α) (hx : x ∈ storeKeys (storePut s k r)) : x ∈ storeKeys s ∨ x = k := by
  induction s with
  | nil =>
    right
    simpa [storePut, storeKeys] using hx
  | cons p rest ih =>
    by_cases h : p.1 = k
    · rw [show storePut (p :: rest) k r = (k, r) :: rest from by
        simp [storePut, h]] at hx
      rw [storeKeys, List.map_cons, List.mem_cons] at hx
      rcases hx with hx | hx
      · exact Or.inr hx
      · exact Or.inl (by rw [storeKeys, List.map_cons, List.mem_cons]; exact Or.inr hx)
    · rw [show storePut (p :: rest) k r = p :: storePut rest k r from by
        simp [storePut, h]] at hx
      rw [storeKeys, List.map_cons, List.mem_cons] at hx
      rcases hx with hx | hx
      · exact Or.inl (by rw [storeKeys, List.map_cons, List.mem_cons]; exact Or.inl hx)
      · rcases ih hx with h' | h'
        · exact Or.inl (by rw [storeKeys, List.map_cons, List.mem_cons]; exact Or.inr h')
        · exact Or.inr h'

theorem storeKeys_nodup_storePut {α : Type} (s : List (String × α)) (k : String)
    (r : α) (h : (storeKeys s).Nodup) : (storeKeys (storePut s k r)).Nodup := by
  induction s with
  | nil => simp [storePut, storeKeys]
  | cons p rest ih =>
    simp only [storeKeys, List.map_cons, List.nodup_cons] at h
    by_cases hk : p.1 = k
    · simp only [storePut, if_pos hk, storeKeys, List.map_cons, List.nodup_cons]
      exact ⟨hk ▸ h.1, h.2⟩
    · simp only [storePut, if_neg hk, storeKeys, List.map_cons, List.nodup_cons]
      refine ⟨fun hmem => ?_, ih h.2⟩
      rcases mem_storeKeys_storePut rest k p.1 r hmem with h' | h'
      · exact h.1 h'
      · exact hk h'

theorem filter_key_nil_of_not_mem {α : Type} (s : List (String × α)) (k : String)
    (h : k ∉ storeKeys s) : s.filter (fun p => p.1 == k) = [] := by
  induction s with
  | nil => rfl
  | cons p rest ih =>
    simp only [storeKeys, List.map_cons, List.mem_cons, not_or] at h
    simp [List.filter_cons, beq_iff_eq, Ne.symm, h.1, ih (by simpa [storeKeys] using h.2)]

theorem nodup_filter_key_len {α : Type} (s : List (String × α)) (k : String)
    (h : (storeKeys s).Nodup) : (s.filter (fun p => p.1 == k)).length ≤ 1 := by
  induction s with
  | nil => simp
  | cons p rest ih =>
    simp only [storeKeys, List.map_cons, List.nodup_cons] at h
    by_cases hk : p.1 = k
    · rw [List.filter_cons]
      simp only [hk, beq_self_eq_true, if_pos]
      rw [filter_key_nil_of_not_mem rest k (hk ▸ h.1)]
      simp
    · rw [List.filter_cons]
      simp only [beq_iff_eq, hk, if_neg, ite_false]
      exact ih h.2

theorem docId_inj_right (vid a b : String) (h : docId vid a = docId vid b) :
    a = b := by
  unfold docId at h
  have hd : (vid ++ "_").data ++ a.data = (vid ++ "_").data ++ b.data := by
    have := congrArg String.data h
    simpa [String.data_append, List.append_assoc] using this
  have hab : a.data = b.data := List.append_cancel_left hd
  exact String.ext hab

theorem handleSave_get {α : Type} (vid : String) :
    ∀ (batch : List (String × α)) (store : List (String × α)) (dk : String),
      storeGet (handleSave store vid batch) (docId vid dk) =
        match lastFor batch dk with
        | some r => some r
        | none => storeGet store (docId vid dk) := by
  intro batch
  induction batch with
  | nil => intro store dk; rfl
  | cons p rest ih =>
    intro store dk
    show storeGet (handleSave (storePut store (docId vid p.1) p.2) vid rest)
        (docId vid dk) = _
    rw [ih]
    cases hrest : lastFor rest dk with
    | some r => simp [lastFor, hrest]
    | none =>
      by_cases hk : p.1 = dk
      · simp only [lastFor, hrest, if_pos hk]
        rw [hk, storeGet_storePut_self]
      · simp only [lastFor, hrest, if_neg hk]
        exact storeGet_storePut_other store (docId vid p.1) (docId vid dk) p.2
          (fun hcontra => hk (docId_inj_right vid dk p.1 hcontra).symm)

theorem handleSave_keys_nodup {α : Type} (vid : String) :
    ∀ (batch : List (String × α)) (store : List (String × α)),
      (storeKeys store).Nodup → (storeKeys (handleSave store vid batch)).Nodup := by
  intro batch
  induction batch with
  | nil => intro store h; exact h
  | cons p rest ih =>
    intro store h
    exact ih _ (storeKeys_nodup_storePut store (docId vid p.1) p.2 h)

/-- **C7** (Duplicate last-wins): saving a weekly batch writes each record at
document id `vehicleId_dateKey`; if the batch carries several records for one
`(vehicleId, dateKey)` pair, the stored collection afterwards holds exactly
one document for that pair — the last record written — so the aggregation,
which consumes the stored collection, never sums duplicates for a pair. -/
theorem c7_duplicate_last_wins {α : Type} (store : List (String × α))
    (vid : String) (batch : List (String × α)) (dk : String) (r : α)
    (hnd : (storeKeys store).Nodup) (hlast : lastFor batch dk = some r) :
    storeGet (handleSave store vid batch) (docId vid dk) = some r ∧
    ((handleSave store vid batch).filter
      (fun p => p.1 == docId vid dk)).length ≤ 1 ∧
    (storeKeys (handleSave store vid batch)).Nodup := by
  have hnd' := handleSave_keys_nodup vid batch store hnd
  refine ⟨?_, nodup_filter_key_len _ _ hnd', hnd'⟩
  rw [handleSave_get vid batch store dk, hlast]

/-- Concrete check of C7: two writes for the same date key; the second wins
and the store holds a single document for the pair. -/
theorem c7_duplicate_last_wins_witness :
    lastFor [("2025-03-01", (1 : ℕ)), ("2025-03-01", 2)] "2025-03-01" = some 2 ∧
    (storeGet (handleSave ([] : List (String × ℕ)) "v1"
        [("2025-03-01", 1), ("2025-03-01", 2)]) (docId "v1" "2025-03-01") =
        some 2 ∧
      ((handleSave ([] : List (String × ℕ)) "v1"
          [("2025-03-01", 1), ("2025-03-01", 2)]).filter
        (fun p => p.1 == docId "v1" "2025-03-01")).length ≤ 1 ∧
      (storeKeys (handleSave ([] : List (String × ℕ)) "v1"
        [("2025-03-01", 1), ("2025-03-01", 2)])).Nodup) :=
  ⟨rfl, c7_duplicate_last_wins [] "v1" [("2025-03-01", 1), ("2025-03-01", 2)]
    "2025-03-01" 2 (by simp [storeKeys]) rfl⟩

/-! ### Gap-report structure: C2 and C9 -/

theorem mem_gapPut (g : List (String × List Nat)) (k : String) (l : List Nat)
    (p : String × List Nat) (hp : p ∈ gapPut g k l) : p = (k, l) ∨ p ∈ g := by
  induction g with
  | nil =>
    left
    simpa [gapPut] using hp
  | cons q rest ih =>
    by_cases h : q.1 = k
    · rw [show gapPut (q :: rest) k l = (k, l) :: rest from by simp [gapPut, h]] at hp
      rcases List.mem_cons.mp hp with h' | h'
      · exact Or.inl h'
      · exact Or.inr (List.mem_cons_of_mem _ h')
    · rw [show gapPut (q :: rest) k l = q :: gapPut rest k l from by
        simp [gapPut, h]] at hp
      rcases List.mem_cons.mp hp with h' | h'
      · exact Or.inr (h' ▸ List.mem_cons_self q rest)
      · rcases ih h' with h'' | h''
        · exact Or.inl h''
        · exact Or.inr (List.mem_cons_of_mem _ h'')

theorem mem_gapFold (env : Env) :
    ∀ (vs : List Vehicle) (g : List (String × List Nat)) (p : String × List Nat),
      p ∈ vs.foldl (gapStep env) g →
      p ∈ g ∨ ∃ v ∈ vs,
        ¬(env.vehicleFilter ≠ "all" ∧ v.value ≠ env.vehicleFilter) ∧
        p = (v.label, entityMissing env v) ∧ entityMissing env v ≠ [] := by
  intro vs
  induction vs with
  | nil => intro g p hp; exact Or.inl hp
  | cons v rest ih =>
    intro g p hp
    rw [List.foldl_cons] at hp
    rcases ih (gapStep env g v) p hp with h | h
    · simp only [gapStep] at h
      by_cases hskip : env.vehicleFilter ≠ "all" ∧ v.value ≠ env.vehicleFilter
      · rw [if_pos hskip] at h
        exact Or.inl h
      · rw [if_neg hskip] at h
        by_cases hnil : entityMissing env v = []
        · rw [if_pos hnil] at h
          exact Or.inl h
        · rw [if_neg hnil] at h
          rcases mem_gapPut g v.label (entityMissing env v) p h with h' | h'
          · exact Or.inr ⟨v, List.mem_cons_self v rest, hskip, h', hnil⟩
          · exact Or.inl h'
    · obtain ⟨w, hw, h1, h2, h3⟩ := h
      exact Or.inr ⟨w, List.mem_cons_of_mem v hw, h1, h2, h3⟩

theorem mem_computeGaps (env : Env) (p : String × List Nat)
    (hp : p ∈ (fetchSummaryData env).missingDays) :
    env.summaryView = .month ∧
    ∃ v ∈ vehiclesToCheck env,
      ¬(env.vehicleFilter ≠ "all" ∧ v.value ≠ env.vehicleFilter) ∧
      p = (v.label, entityMissing env v) ∧ entityMissing env v ≠ [] := by
  have hp' : p ∈ computeGaps env := hp
  unfold computeGaps at hp'
  by_cases hv : env.summaryView = .month
  · rw [if_pos hv] at hp'
    rcases mem_gapFold env (vehiclesToCheck env) [] p hp' with h | h
    · simp at h
    · exact ⟨hv, h⟩
  · rw [if_neg hv] at hp'
    simp at hp'

theorem mem_missingFor (lastDay : Nat) (rt dt : List (String × Finset ℕ))
    (vid : String) (d : Nat) (hd : d ∈ missingFor lastDay rt dt vid) :
    1 ≤ d ∧ d ≤ lastDay ∧ d ∉ trkGet rt vid ∧ d ∉ trkGet dt vid := by
  unfold missingFor at hd
  rw [List.mem_filter] at hd
  obtain ⟨hr, hc⟩ := hd
  rw [List.mem_range'_1] at hr
  simp only [Bool.and_eq_true, decide_eq_true_eq] at hc
  exact ⟨hr.1, by omega, hc.1, hc.2⟩

theorem missingFor_sorted (lastDay : Nat) (rt dt : List (String × Finset ℕ))
    (vid : String) : List.Pairwise (· < ·) (missingFor lastDay rt dt vid) :=
  List.Pairwise.filter _ (List.pairwise_lt_range' 1 lastDay)

theorem normYM_eq (y : Int) (m : Nat) (hm : m ≤ 11) : normYM y m = (y, m) := by
  unfold normYM
  have h12 : m / 12 = 0 := Nat.div_eq_of_lt (by omega)
  have h12' : m % 12 = m := Nat.mod_eq_of_lt (by omega)
  rw [h12, h12']
  simp

theorem lastDayToCheck_eq (env : Env) (hv : env.summaryView = .month)
    (hm : env.selectedMonth ≤ 11) :
    lastDayToCheck env =
      if env.selectedMonth = env.now.month ∧ env.selectedYear = env.now.year
      then env.now.day
      else daysInMonth env.selectedYear env.selectedMonth := by
  unfold lastDayToCheck
  by_cases h : env.selectedMonth = env.now.month ∧ env.selectedYear = env.now.year
  · rw [if_pos h, if_pos h]
  · rw [if_neg h, if_neg h]
    unfold ivOf
    rw [hv]
    show (monthEnd (normYM env.selectedYear env.selectedMonth).1
        (normYM env.selectedYear env.selectedMonth).2).day = _
    rw [normYM_eq env.selectedYear env.selectedMonth hm]
    rfl

/-- **C2** (Gap boundary): in every Month-mode run the gap detector checks
exactly the days `1..lastDayToCheck` — every reported entry is the filtered
day range `missingFor` of some tracked vehicle — where `lastDayToCheck` is
`now`'s day-of-month when the selected month and year equal `now`'s, and the
last calendar day of the selected month otherwise; hence for the current
month no reported missing day-number exceeds `now`'s day-of-month. -/
theorem c2_gap_boundary (env : Env) (hv : env.summaryView = .month)
    (hm : env.selectedMonth ≤ 11) (p : String × List Nat) (d : Nat)
    (hp : p ∈ (fetchSummaryData env).missingDays) (hd : d ∈ p.2) :
    lastDayToCheck env =
      (if env.selectedMonth = env.now.month ∧ env.selectedYear = env.now.year
       then env.now.day
       else daysInMonth env.selectedYear env.selectedMonth) ∧
    (∃ v ∈ vehiclesToCheck env, p.1 = v.label ∧
      p.2 = missingFor (lastDayToCheck env) (runAgg env).records
        (runAgg env).dayOff v.value) ∧
    1 ≤ d ∧ d ≤ lastDayToCheck env ∧
    (env.selectedMonth = env.now.month ∧ env.selectedYear = env.now.year →
      d ≤ env.now.day) := by
  obtain ⟨-, v, hvmem, hskip, hpe, hne⟩ := mem_computeGaps env p hp
  have hp2 : p.2 = entityMissing env v := congrArg Prod.snd hpe
  have hdm : d ∈ missingFor (lastDayToCheck env) (runAgg env).records
      (runAgg env).dayOff v.value := by
    rw [hp2] at hd
    exact hd
  have hbounds := mem_missingFor _ _ _ _ d hdm
  refine ⟨lastDayToCheck_eq env hv hm,
    ⟨v, hvmem, congrArg Prod.fst hpe, hp2⟩, hbounds.1, hbounds.2.1, ?_⟩
  intro hcur
  have hL : lastDayToCheck env = env.now.day := by
    unfold lastDayToCheck
    rw [if_pos hcur]
  rw [hL] at hbounds
  exact hbounds.2.1

/-- Concrete check of C2 at `envGapKey`, day 2 of the reported gap list. -/
theorem c2_gap_boundary_witness :
    ("Truck A", [1, 2, 3]) ∈ (fetchSummaryData envGapKey).missingDays ∧
    (lastDayToCheck envGapKey =
      (if envGapKey.selectedMonth = envGapKey.now.month ∧
          envGapKey.selectedYear = envGapKey.now.year
       then envGapKey.now.day
       else daysInMonth envGapKey.selectedYear envGapKey.selectedMonth) ∧
    (∃ v ∈ vehiclesToCheck envGapKey, ("Truck A", [1, 2, 3]).1 = v.label ∧
      ("Truck A", [1, 2, 3]).2 = missingFor (lastDayToCheck envGapKey)
        (runAgg envGapKey).records (runAgg envGapKey).dayOff v.value) ∧
    1 ≤ 2 ∧ 2 ≤ lastDayToCheck envGapKey ∧
    (envGapKey.selectedMonth = envGapKey.now.month ∧
        envGapKey.selectedYear = envGapKey.now.year → 2 ≤ envGapKey.now.day)) :=
  ⟨by decide,
   c2_gap_boundary envGapKey rfl (by decide) ("Truck A", [1, 2, 3]) 2
     (by decide) (by decide)⟩

/-- Concrete check of C5: unparseable-date records — a finance record and a
service-history entry — contribute nothing. -/
theorem c5_malformed_date_dropped_witness :
    resolveDate badRec.date = none ∧ resolveDate badSvc.date = none ∧
    ((fetchSummaryData { envGapKey with finances := [goodRec] ++ badRec :: [] } =
        fetchSummaryData { envGapKey with finances := [goodRec] ++ [] }) ∧
     (fetchSummaryData (envWithSvc envGapKey "v1" ([] ++ badSvc :: [goodSvc])) =
        fetchSummaryData (envWithSvc envGapKey "v1" ([] ++ [goodSvc])))) :=
  ⟨rfl, rfl,
   c5_malformed_date_dropped envGapKey [goodRec] [] badRec "v1" [] [goodSvc]
     badSvc rfl rfl⟩

/-- **C9 counterexample**: the gap report of `envGapKey` is keyed by the
entity's display label `"Truck A"`; the entityId `"v1"` (the key the claim
asserts) appears nowhere among the keys. -/
theorem c9_keyed_by_label_counterexample :
    (fetchSummaryData envGapKey).missingDays = [("Truck A", [1, 2, 3])] ∧
    "v1" ∉ (fetchSummaryData envGapKey).missingDays.map Prod.fst ∧
    (vehiclesToCheck envGapKey).map Vehicle.value = ["v1"] :=
  ⟨rfl, by decide, rfl⟩

/-- **C9** (amended — GapReport structure): the gap report is a mapping keyed
by the entity's *display label* (not its entityId, as originally claimed);
each stored value is a strictly ascending list of 1-based missing
day-numbers of a tracked, filter-passing entity; the mapping is produced
only when the period mode is Month and is empty otherwise; and — when the
display labels are unambiguous — an entity with zero missing days has no
entry in the mapping at all. -/
theorem c9_gap_report_structure (env : Env) :
    (env.summaryView ≠ .month → (fetchSummaryData env).missingDays = []) ∧
    (∀ p ∈ (fetchSummaryData env).missingDays,
      env.summaryView = .month ∧ p.2 ≠ [] ∧ List.Pairwise (· < ·) p.2 ∧
      ∃ v ∈ vehiclesToCheck env,
        ¬(env.vehicleFilter ≠ "all" ∧ v.value ≠ env.vehicleFilter) ∧
        p.1 = v.label ∧ p.2 = entityMissing env v) ∧
    (((vehiclesToCheck env).map Vehicle.label).Nodup →
      ∀ v ∈ vehiclesToCheck env, entityMissing env v = [] →
        v.label ∉ (fetchSummaryData env).missingDays.map Prod.fst) := by
  refine ⟨fun hne => ?_, fun p hp => ?_, fun hnodup v hv hempty hmem => ?_⟩
  · show computeGaps env = []
    unfold computeGaps
    rw [if_neg hne]
  · obtain ⟨hv, v, hvm, hskip, hpe, hne⟩ := mem_computeGaps env p hp
    have hp2 : p.2 = entityMissing env v := congrArg Prod.snd hpe
    refine ⟨hv, by rw [hp2]; exact hne, ?_, v, hvm, hskip,
      congrArg Prod.fst hpe, hp2⟩
    rw [hp2]
    exact missingFor_sorted _ _ _ _
  · rw [List.mem_map] at hmem
    obtain ⟨p, hp, hfst⟩ := hmem
    obtain ⟨-, w, hw, -, hpe, hne⟩ := mem_computeGaps env p hp
    have hlab : w.label = v.label := by
      rw [hpe] at hfst
      exact hfst
    have hwv : w = v := List.inj_on_of_nodup_map hnodup hw hv hlab
    exact hne (hwv ▸ hempty)

/-- Concrete check of the amended C9 at `envGapKey`. -/
theorem c9_gap_report_structure_witness :
    ("Truck A", [1, 2, 3]) ∈ (fetchSummaryData envGapKey).missingDays ∧
    (envGapKey.summaryView = .month ∧ ([1, 2, 3] : List Nat) ≠ [] ∧
      List.Pairwise (· < ·) ([1, 2, 3] : List Nat) ∧
      ∃ v ∈ vehiclesToCheck envGapKey,
        ¬(envGapKey.vehicleFilter ≠ "all" ∧ v.value ≠ envGapKey.vehicleFilter) ∧
        ("Truck A", ([1, 2, 3] : List Nat)).1 = v.label ∧
        ("Truck A", ([1, 2, 3] : List Nat)).2 = entityMissing envGapKey v) :=
  ⟨by decide,
   (c9_gap_report_structure envGapKey).2.1 ("Truck A", [1, 2, 3]) (by decide)⟩

/-! ### C3: any DailyLog record (day-off included) covers its day -/

theorem trkHasKey_trkPut_self (m : List (String × Finset ℕ)) (k : String)
    (s : Finset ℕ) : trkHasKey (trkPut m k s) k = true := by
  induction m with
  | nil => simp [trkPut, trkHasKey]
  | cons p rest ih =>
    by_cases h : p.1 = k
    · rw [show trkPut (p :: rest) k s = (k, s) :: rest from by simp [trkPut, h]]
      simp [trkHasKey]
    · rw [show trkPut (p :: rest) k s = p :: trkPut rest k s from by
        simp [trkPut, h]]
      rw [show trkHasKey (p :: trkPut rest k s) k =
        (p.1 == k || trkHasKey (trkPut rest k s) k) from rfl]
      rw [ih]
      simp

theorem trkHasKey_trkPut_mono (m : List (String × Finset ℕ)) (k k' : String)
    (s : Finset ℕ) (h : trkHasKey m k' = true) :
    trkHasKey (trkPut m k s) k' = true := by
  induction m with
  | nil => simp [trkHasKey] at h
  | cons p rest ih =>
    rw [show trkHasKey (p :: rest) k' = (p.1 == k' || trkHasKey rest k') from rfl,
      Bool.or_eq_true] at h
    by_cases hk : p.1 = k
    · rw [show trkPut (p :: rest) k s = (k, s) :: rest from by simp [trkPut, hk]]
      rw [show trkHasKey ((k, s) :: rest) k' = (k == k' || trkHasKey rest k') from
        rfl, Bool.or_eq_true]
      rcases h with h | h
      · left
        rw [beq_iff_eq] at h ⊢
        rw [← hk, h]
      · exact Or.inr h
    · rw [show trkPut (p :: rest) k s = p :: trkPut rest k s from by
        simp [trkPut, hk]]
      rw [show trkHasKey (p :: trkPut rest k s) k' =
        (p.1 == k' || trkHasKey (trkPut rest k s) k') from rfl, Bool.or_eq_true]
      rcases h with h | h
      · exact Or.inl h
      · exact Or.inr (ih h)

theorem trkHasKey_foldlPut_pres (vs : List Vehicle) :
    ∀ (m : List (String × Finset ℕ)) (k : String), trkHasKey m k = true →
      trkHasKey (vs.foldl (fun m v => trkPut m v.value ∅) m) k = true := by
  induction vs with
  | nil => intro m k h; exact h
  | cons w rest ih =>
    intro m k h
    rw [List.foldl_cons]
    exact ih _ k (trkHasKey_trkPut_mono m w.value k ∅ h)

theorem trkHasKey_foldlPut (vs : List Vehicle) :
    ∀ (m : List (String × Finset ℕ)) (v : Vehicle), v ∈ vs →
      trkHasKey (vs.foldl (fun m v => trkPut m v.value ∅) m) v.value = true := by
  induction vs with
  | nil => intro m v hv; exact absurd hv (List.not_mem_nil v)
  | cons w rest ih =>
    intro m v hv
    rw [List.foldl_cons]
    rcases List.mem_cons.mp hv with h | h
    · subst h
      exact trkHasKey_foldlPut_pres rest _ _ (trkHasKey_trkPut_self m v.value ∅)
    · exact ih (trkPut m w.value ∅) v h

theorem trkHasKey_trkInit (vs : List Vehicle) (v : Vehicle) (hv : v ∈ vs) :
    trkHasKey (trkInit vs) v.value = true :=
  trkHasKey_foldlPut vs [] v hv

theorem trkHasKey_trkAdd (m : List (String × Finset ℕ)) (k k' : String) (d : ℕ) :
    trkHasKey (trkAdd m k d) k' = trkHasKey m k' := by
  induction m with
  | nil => rfl
  | cons p rest ih =>
    show trkHasKey ((if p.1 = k then (p.1, insert d p.2) else p) :: trkAdd rest k d)
      k' = _
    by_cases h : p.1 = k
    · rw [if_pos h]
      show (p.1 == k' || trkHasKey (trkAdd rest k d) k') =
        (p.1 == k' || trkHasKey rest k')
      rw [ih]
    · rw [if_neg h]
      show (p.1 == k' || trkHasKey (trkAdd rest k d) k') =
        (p.1 == k' || trkHasKey rest k')
      rw [ih]

theorem mem_trkGet_trkAdd_mono (m : List (String × Finset ℕ)) (k k' : String)
    (d x : ℕ) (hx : x ∈ trkGet m k') : x ∈ trkGet (trkAdd m k d) k' := by
  induction m with
  | nil => simp [trkGet] at hx
  | cons p rest ih =>
    by_cases h : p.1 = k
    · by_cases h' : p.1 = k'
      · rw [trkGet, if_pos h'] at hx
        rw [trkAdd, List.map_cons, if_pos h, trkGet]
        simp only [h', if_pos]
        exact Finset.mem_insert_of_mem hx
      · rw [trkGet, if_neg h'] at hx
        rw [trkAdd, List.map_cons, if_pos h, trkGet]
        rw [if_neg h']
        exact ih hx
    · by_cases h' : p.1 = k'
      · rw [trkGet, if_pos h'] at hx
        rw [trkAdd, List.map_cons, if_neg h, trkGet, if_pos h']
        exact hx
      · rw [trkGet, if_neg h'] at hx
        rw [trkAdd, List.map_cons, if_neg h, trkGet, if_neg h']
        exact ih hx

theorem mem_trkGet_trkAdd_self (m : List (String × Finset ℕ)) (k : String)
    (d : ℕ) (hk : trkHasKey m k = true) : d ∈ trkGet (trkAdd m k d) k := by
  induction m with
  | nil => simp [trkHasKey] at hk
  | cons p rest ih =>
    by_cases h : p.1 = k
    · rw [trkAdd, List.map_cons, if_pos h, trkGet, if_pos h]
      exact Finset.mem_insert_self d p.2
    · simp only [trkHasKey, List.any_cons, Bool.or_eq_true, beq_iff_eq] at hk
      rcases hk with hk | hk
      · exact absurd hk h
      · rw [trkAdd, List.map_cons, if_neg h, trkGet, if_neg h]
        exact ih hk

theorem finStepGo_trackers (env : Env) (itv : Interval) (st : AggState)
    (d : FinanceData) (dd : SDateTime) :
    ((finStepGo env itv st d dd).records = st.records ∧
      (finStepGo env itv st d dd).dayOff = st.dayOff) ∨
    (inInterval itv dd ∧ trkHasKey st.records d.vehicleId = true ∧
      ((d.isDayOff = true ∧ (finStepGo env itv st d dd).records = st.records ∧
        (finStepGo env itv st d dd).dayOff = trkAdd st.dayOff d.vehicleId dd.day) ∨
       (d.isDayOff = false ∧
        (finStepGo env itv st d dd).records = trkAdd st.records d.vehicleId dd.day ∧
        (finStepGo env itv st d dd).dayOff = st.dayOff))) := by
  simp only [finStepGo]
  by_cases hin : inInterval itv dd
  · rw [if_pos hin]
    by_cases hk : trkHasKey st.records d.vehicleId = true
    · rw [if_pos hk]
      by_cases ho : d.isDayOff
      · refine Or.inr ⟨hin, hk, Or.inl ⟨ho, ?_, ?_⟩⟩ <;> simp [ho]
      · rw [Bool.not_eq_true] at ho
        refine Or.inr ⟨hin, hk, Or.inr ⟨ho, ?_, ?_⟩⟩ <;> simp [ho]
    · rw [if_neg hk]
      exact Or.inl ⟨rfl, rfl⟩
  · rw [if_neg hin]
    exact Or.inl ⟨rfl, rfl⟩

theorem finStep_records_hasKey (env : Env) (itv : Interval) (st : AggState)
    (d : FinanceData) (k : String) :
    trkHasKey (finStep env itv st d).records k = trkHasKey st.records k := by
  unfold finStep
  cases resolveDate d.date with
  | none => rfl
  | some dd =>
    rcases finStepGo_trackers env itv st d dd with ⟨h1, h2⟩ | ⟨-, -, h⟩
    · rw [h1]
    · rcases h with ⟨-, h1, h2⟩ | ⟨-, h1, h2⟩
      · rw [h1]
      · rw [h1, trkHasKey_trkAdd]

theorem finStep_dayOff_hasKey (env : Env) (itv : Interval) (st : AggState)
    (d : FinanceData) (k : String) :
    trkHasKey (finStep env itv st d).dayOff k = trkHasKey st.dayOff k := by
  unfold finStep
  cases resolveDate d.date with
  | none => rfl
  | some dd =>
    rcases finStepGo_trackers env itv st d dd with ⟨h1, h2⟩ | ⟨-, -, h⟩
    · rw [h2]
    · rcases h with ⟨-, h1, h2⟩ | ⟨-, h1, h2⟩
      · rw [h2, trkHasKey_trkAdd]
      · rw [h2]

theorem covered_mono_finStep (env : Env) (itv : Interval) (st : AggState)
    (d : FinanceData) (vid : String) (day : ℕ) (h : covered st vid day) :
    covered (finStep env itv st d) vid day := by
  unfold finStep
  cases resolveDate d.date with
  | none => exact h
  | some dd =>
    rcases finStepGo_trackers env itv st d dd with ⟨h1, h2⟩ | ⟨-, -, hcase⟩
    · unfold covered
      rw [h1, h2]
      exact h
    · rcases hcase with ⟨-, h1, h2⟩ | ⟨-, h1, h2⟩
      · unfold covered
        rw [h1, h2]
        rcases h with h | h
        · exact Or.inl h
        · exact Or.inr (mem_trkGet_trkAdd_mono _ _ _ _ _ h)
      · unfold covered
        rw [h1, h2]
        rcases h with h | h
        · exact Or.inl (mem_trkGet_trkAdd_mono _ _ _ _ _ h)
        · exact Or.inr h

theorem covered_finStep_self (env : Env) (itv : Interval) (st : AggState)
    (d : FinanceData) (dd : SDateTime) (hdate : resolveDate d.date = some dd)
    (hin : inInterval itv dd)
    (hkr : trkHasKey st.records d.vehicleId = true)
    (hkd : trkHasKey st.dayOff d.vehicleId = true) :
    covered (finStep env itv st d) d.vehicleId dd.day := by
  have hstep : finStep env itv st d = finStepGo env itv st d dd := by
    unfold finStep
    rw [hdate]
  rw [hstep]
  unfold covered
  simp only [finStepGo]
  rw [if_pos hin, if_pos hkr]
  by_cases ho : d.isDayOff
  · simp only [ho]
    simp
    exact Or.inr (mem_trkGet_trkAdd_self _ _ _ hkd)
  · rw [Bool.not_eq_true] at ho
    simp only [ho]
    simp
    exact Or.inl (mem_trkGet_trkAdd_self _ _ _ hkr)

theorem covered_foldl_mono (env : Env) (itv : Interval) (vid : String) (day : ℕ) :
    ∀ (l : List FinanceData) (st : AggState), covered st vid day →
      covered (l.foldl (finStep env itv) st) vid day := by
  intro l
  induction l with
  | nil => intro st h; exact h
  | cons e rest ih =>
    intro st h
    rw [List.foldl_cons]
    exact ih _ (covered_mono_finStep env itv st e vid day h)

theorem covered_foldl (env : Env) (itv : Interval) (d : FinanceData)
    (dd : SDateTime) (hdate : resolveDate d.date = some dd)
    (hin : inInterval itv dd) :
    ∀ (l : List FinanceData) (st : AggState), d ∈ l →
      trkHasKey st.records d.vehicleId = true →
      trkHasKey st.dayOff d.vehicleId = true →
      covered (l.foldl (finStep env itv) st) d.vehicleId dd.day := by
  intro l
  induction l with
  | nil => intro st hd; exact absurd hd (List.not_mem_nil d)
  | cons e rest ih =>
    intro st hd hkr hkd
    rw [List.foldl_cons]
    rcases List.mem_cons.mp hd with h | h
    · subst h
      exact covered_foldl_mono env itv d.vehicleId dd.day rest _
        (covered_finStep_self env itv st d dd hdate hin hkr hkd)
    · exact ih _ h
        (by rw [finStep_records_hasKey]; exact hkr)
        (by rw [finStep_dayOff_hasKey]; exact hkd)

theorem svcStepGo_trackers (env : Env) (itv : Interval) (vid : String)
    (st : AggState) (s : ServiceData) (sd : SDateTime) :
    (svcStepGo env itv vid st s sd).records = st.records ∧
    (svcStepGo env itv vid st s sd).dayOff = st.dayOff := by
  simp only [svcStepGo]
  by_cases hin : inInterval itv sd
  · rw [if_pos hin]
    by_cases hskip :
        (classAmort (strOrEmpty s.description) && !env.includeAmortization) = true
    · rw [if_pos hskip]
      exact ⟨rfl, rfl⟩
    · rw [if_neg hskip]
      exact ⟨rfl, rfl⟩
  · rw [if_neg hin]
    exact ⟨rfl, rfl⟩

theorem svcStep_records (env : Env) (itv : Interval) (vid : String)
    (st : AggState) (s : ServiceData) :
    (svcStep env itv vid st s).records = st.records ∧
    (svcStep env itv vid st s).dayOff = st.dayOff := by
  unfold svcStep
  cases resolveDate s.date with
  | none => exact ⟨rfl, rfl⟩
  | some sd => exact svcStepGo_trackers env itv vid st s sd

theorem svcFold_records (env : Env) (itv : Interval) (vid : String) :
    ∀ (l : List ServiceData) (st : AggState),
      ((l.foldl (svcStep env itv vid) st).records = st.records ∧
       (l.foldl (svcStep env itv vid) st).dayOff = st.dayOff) := by
  intro l
  induction l with
  | nil => intro st; exact ⟨rfl, rfl⟩
  | cons s rest ih =>
    intro st
    rw [List.foldl_cons]
    obtain ⟨h1, h2⟩ := ih (svcStep env itv vid st s)
    obtain ⟨g1, g2⟩ := svcStep_records env itv vid st s
    exact ⟨h1.trans g1, h2.trans g2⟩

theorem runAgg_trackers (env : Env) :
    (runAgg env).records =
      ((financesInScope env).foldl (finStep env (ivOf env))
        (initState env)).records ∧
    (runAgg env).dayOff =
      ((financesInScope env).foldl (finStep env (ivOf env))
        (initState env)).dayOff := by
  unfold runAgg
  generalize (financesInScope env).foldl (finStep env (ivOf env))
    (initState env) = st1
  induction (vIdsOf env) generalizing st1 with
  | nil => exact ⟨rfl, rfl⟩
  | cons vid rest ih =>
    rw [List.foldl_cons]
    obtain ⟨h1, h2⟩ := ih ((env.service vid).foldl (svcStep env (ivOf env) vid) st1)
    obtain ⟨g1, g2⟩ := svcFold_records env (ivOf env) vid (env.service vid) st1
    exact ⟨h1.trans g1, h2.trans g2⟩

theorem mem_financesInScope (env : Env) (d : FinanceData) (v : Vehicle)
    (hd : d ∈ env.finances) (hvid : d.vehicleId = v.value)
    (hfilter : env.vehicleFilter = "all" ∨ env.vehicleFilter = v.value) :
    d ∈ financesInScope env := by
  unfold financesInScope
  rcases hfilter with h | h
  · rw [if_pos h]
    exact hd
  · by_cases hall : env.vehicleFilter = "all"
    · rw [if_pos hall]
      exact hd
    · rw [if_neg hall]
      rw [List.mem_filter]
      exact ⟨hd, by rw [beq_iff_eq, hvid, h]⟩

/-- **C3** (Day-off non-gap): in a Month-mode run, any day on which a tracked,
filter-passing entity has a DailyLog record inside the reporting interval —
including a record marked `isDayOff` — is covered and never appears in that
entity's missing-day list. -/
theorem c3_dayoff_non_gap (env : Env) (v : Vehicle) (d : FinanceData)
    (dd : SDateTime) (hv : v ∈ vehiclesToCheck env) (hd : d ∈ env.finances)
    (hvid : d.vehicleId = v.value)
    (hfilter : env.vehicleFilter = "all" ∨ env.vehicleFilter = v.value)
    (hdate : resolveDate d.date = some dd) (hin : inInterval (ivOf env) dd) :
    dd.day ∉ entityMissing env v := by
  intro hmem
  obtain ⟨-, -, hnr, hnd⟩ := mem_missingFor _ _ _ _ _ hmem
  have hscope : d ∈ financesInScope env := mem_financesInScope env d v hd hvid hfilter
  have hkey : trkHasKey (trkInit (vehiclesToCheck env)) v.value = true :=
    trkHasKey_trkInit (vehiclesToCheck env) v hv
  have hcov : covered ((financesInScope env).foldl (finStep env (ivOf env))
      (initState env)) d.vehicleId dd.day := by
    refine covered_foldl env (ivOf env) d dd hdate hin _ _ hscope ?_ ?_
    · show trkHasKey (trkInit (vehiclesToCheck env)) d.vehicleId = true
      rw [hvid]
      exact hkey
    · show trkHasKey (trkInit (vehiclesToCheck env)) d.vehicleId = true
      rw [hvid]
      exact hkey
  obtain ⟨hr, ho⟩ := runAgg_trackers env
  rw [hvid] at hcov
  rcases hcov with hcv | hcv
  · exact hnr (by rw [hr]; exact hcv)
  · exact hnd (by rw [ho]; exact hcv)

/-- Concrete check of C3: a day-off record on 2025-03-02 keeps day 2 out of
the missing list (`envGapKey` extended with that record). -/
theorem c3_dayoff_non_gap_witness :
    (⟨"Truck A", "v1"⟩ : Vehicle) ∈
      vehiclesToCheck { envGapKey with finances :=
        [⟨"v1", .strNum 0, none, .str (some ⟨2025, 2, 2, 0, 0, 0, 0⟩), true⟩] } ∧
    (2 : ℕ) ∉ entityMissing
      { envGapKey with finances :=
        [⟨"v1", .strNum 0, none, .str (some ⟨2025, 2, 2, 0, 0, 0, 0⟩), true⟩] }
      ⟨"Truck A", "v1"⟩ :=
  ⟨by decide,
   c3_dayoff_non_gap
     { envGapKey with finances :=
       [⟨"v1", .strNum 0, none, .str (some ⟨2025, 2, 2, 0, 0, 0, 0⟩), true⟩] }
     ⟨"Truck A", "v1"⟩
     ⟨"v1", .strNum 0, none, .str (some ⟨2025, 2, 2, 0, 0, 0, 0⟩), true⟩
     ⟨2025, 2, 2, 0, 0, 0, 0⟩ (by decide) (by decide) rfl (Or.inl rfl) rfl
     (by decide)⟩

/-! ### C8: month-mode period resolution and grouping axis -/

/-- **C8** (Month-mode period resolution): in Month mode the resolved interval
is exactly the first through the last instant of the selected month — a valid
instant lies inside iff its year and month are the selected ones — and the
group key of every event is the entity display label (directory lookup with
`Unknown` fallback), not a sub-period label. -/
theorem c8_month_period (env : Env) (hv : env.summaryView = .month)
    (hm : env.selectedMonth ≤ 11) :
    (ivOf env).startD = ⟨env.selectedYear, env.selectedMonth, 1, 0, 0, 0, 0⟩ ∧
    (ivOf env).endD = ⟨env.selectedYear, env.selectedMonth,
      daysInMonth env.selectedYear env.selectedMonth, 23, 59, 59, 999⟩ ∧
    (∀ d : SDateTime, validDate d →
      (inInterval (ivOf env) d ↔
        d.year = env.selectedYear ∧ d.month = env.selectedMonth)) ∧
    (∀ (vid : String) (dd : SDateTime),
      groupKeyOf env.summaryView env.availableVehicles vid dd =
        entityLabel env.availableVehicles vid) := by
  have hiv : ivOf env =
      ⟨⟨env.selectedYear, env.selectedMonth, 1, 0, 0, 0, 0⟩,
       ⟨env.selectedYear, env.selectedMonth,
        daysInMonth env.selectedYear env.selectedMonth, 23, 59, 59, 999⟩⟩ := by
    unfold ivOf
    rw [hv]
    simp only [resolveInterval]
    rw [normYM_eq env.selectedYear env.selectedMonth hm]
    rfl
  refine ⟨by rw [hiv], by rw [hiv], ?_, ?_⟩
  · intro d hval
    obtain ⟨Y, M, D, H, Mi, S, Ms⟩ := d
    simp only [validDate] at hval
    obtain ⟨h1, h2, h3, h4, h5, h6, h7⟩ := hval
    rw [hiv]
    simp only [inInterval, dateLe]
    constructor
    · intro h
      exact ⟨by omega, by omega⟩
    · rintro ⟨hy, hm2⟩
      subst hy
      subst hm2
      constructor
      · omega
      · omega
  · intro vid dd
    rw [hv]
    unfold groupKeyOf
    rw [if_pos rfl]

/-- Concrete check of C8 at `envGapKey` (March 2025, 0-based month 2). -/
theorem c8_month_period_witness :
    (ivOf envGapKey).startD = ⟨2025, 2, 1, 0, 0, 0, 0⟩ ∧
    (ivOf envGapKey).endD = ⟨2025, 2, 31, 23, 59, 59, 999⟩ ∧
    (inInterval (ivOf envGapKey) ⟨2025, 2, 15, 12, 30, 0, 0⟩ ↔
      (2025 : Int) = 2025 ∧ (2 : Nat) = 2) ∧
    groupKeyOf envGapKey.summaryView envGapKey.availableVehicles "v1"
        ⟨2025, 2, 15, 12, 30, 0, 0⟩ =
      entityLabel envGapKey.availableVehicles "v1" :=
  ⟨(c8_month_period envGapKey rfl (by decide)).1,
   (c8_month_period envGapKey rfl (by decide)).2.1,
   (c8_month_period envGapKey rfl (by decide)).2.2.1 ⟨2025, 2, 15, 12, 30, 0, 0⟩
     (by decide),
   (c8_month_period envGapKey rfl (by decide)).2.2.2 "v1"
     ⟨2025, 2, 15, 12, 30, 0, 0⟩⟩

/-! ### C6: amount coercion -/

/-- **C6 counterexample**: a retained record whose `sales` field is a
non-numeric string does not contribute `0` — `Number(d.sales || 0)` is `NaN`
and `NaN` propagates into `totals.income` (the claim would require income
`some 100` here, as without the record). -/
theorem c6_nan_counterexample :
    (fetchSummaryData envBadAmount).income = none ∧
    (fetchSummaryData envNoBadAmount).income = some 100 ∧
    (none : QNaN) ≠ some 100 := by
  refine ⟨by rfl, ?_, by decide⟩
  have h : (fetchSummaryData envNoBadAmount).income = some (0 + 100) := by rfl
  rw [h]
  norm_num

theorem toNum_zeroiseAmt (a : RawAmount) : toNum (zeroiseAmt a) = toNum a := by
  cases a <;> rfl

theorem foldl_map_congr {α β : Type} (f g : β → α → β) (z : α → α)
    (h : ∀ st x, f st (z x) = g st x) :
    ∀ (l : List α) (st : β), (l.map z).foldl f st = l.foldl g st := by
  intro l
  induction l with
  | nil => intro st; rfl
  | cons x rest ih =>
    intro st
    rw [List.map_cons, List.foldl_cons, List.foldl_cons, h]
    exact ih _

theorem finExpAmt_zeroise (incAm : Bool) (d : FinanceData) :
    finExpAmt incAm (zeroiseFin d) = finExpAmt incAm d := by
  unfold finExpAmt
  cases hde : d.expenses with
  | none =>
    rw [show (zeroiseFin d).expenses = none from by simp [zeroiseFin, hde]]
  | some lines =>
    rw [show (zeroiseFin d).expenses = some (lines.map zeroiseExpense) from by
      simp [zeroiseFin, hde]]
    exact foldl_map_congr _ _ zeroiseExpense
      (fun acc e => by
        show (if classAmort (strOrEmpty e.category) && !incAm then acc
          else nadd acc (toNum (zeroiseAmt e.amount))) = _
        rw [toNum_zeroiseAmt]) lines (some 0)

theorem finStepGo_zeroise (env : Env) (itv : Interval) (st : AggState)
    (d : FinanceData) (dd : SDateTime) :
    finStepGo (zeroiseEnv env) itv st (zeroiseFin d) dd = finStepGo env itv st d dd := by
  simp only [finStepGo]
  rw [show toNum (zeroiseFin d).sales = toNum d.sales from toNum_zeroiseAmt d.sales]
  rw [show finExpAmt (zeroiseEnv env).includeAmortization (zeroiseFin d) =
    finExpAmt env.includeAmortization d from finExpAmt_zeroise _ d]
  rfl

theorem finStep_zeroise (env : Env) (itv : Interval) (st : AggState)
    (d : FinanceData) :
    finStep (zeroiseEnv env) itv st (zeroiseFin d) = finStep env itv st d := by
  unfold finStep
  rw [show resolveDate (zeroiseFin d).date = resolveDate d.date from rfl]
  cases resolveDate d.date with
  | none => rfl
  | some dd => exact finStepGo_zeroise env itv st d dd

theorem svcStepGo_zeroise (env : Env) (itv : Interval) (vid : String)
    (st : AggState) (s : ServiceData) (sd : SDateTime) :
    svcStepGo (zeroiseEnv env) itv vid st (zeroiseSvc s) sd =
      svcStepGo env itv vid st s sd := by
  simp only [svcStepGo]
  rw [show toNum (zeroiseSvc s).cost = toNum s.cost from toNum_zeroiseAmt s.cost]
  rfl

theorem svcStep_zeroise (env : Env) (itv : Interval) (vid : String)
    (st : AggState) (s : ServiceData) :
    svcStep (zeroiseEnv env) itv vid st (zeroiseSvc s) = svcStep env itv vid st s := by
  unfold svcStep
  rw [show resolveDate (zeroiseSvc s).date = resolveDate s.date from rfl]
  cases resolveDate s.date with
  | none => rfl
  | some sd => exact svcStepGo_zeroise env itv vid st s sd

theorem financesInScope_zeroise (env : Env) :
    financesInScope (zeroiseEnv env) = (financesInScope env).map zeroiseFin := by
  unfold financesInScope
  by_cases hall : env.vehicleFilter = "all"
  · rw [show (zeroiseEnv env).vehicleFilter = env.vehicleFilter from rfl,
      if_pos hall, if_pos hall]
    rfl
  · rw [show (zeroiseEnv env).vehicleFilter = env.vehicleFilter from rfl,
      if_neg hall, if_neg hall]
    show (env.finances.map zeroiseFin).filter _ = _
    rw [List.filter_map]
    rfl

theorem runAgg_zeroise (env : Env) : runAgg (zeroiseEnv env) = runAgg env := by
  unfold runAgg
  have hfin : (financesInScope (zeroiseEnv env)).foldl
      (finStep (zeroiseEnv env) (ivOf (zeroiseEnv env)))
      (initState (zeroiseEnv env)) =
      (financesInScope env).foldl (finStep env (ivOf env)) (initState env) := by
    rw [financesInScope_zeroise]
    exact foldl_map_congr _ _ zeroiseFin
      (fun st d => finStep_zeroise env (ivOf env) st d) _ _
  rw [hfin]
  have hsvc : ∀ (vids : List String) (st : AggState),
      vids.foldl (fun st vid => ((zeroiseEnv env).service vid).foldl
        (svcStep (zeroiseEnv env) (ivOf (zeroiseEnv env)) vid) st) st =
      vids.foldl (fun st vid => (env.service vid).foldl
        (svcStep env (ivOf env) vid) st) st := by
    intro vids
    induction vids with
    | nil => intro st; rfl
    | cons vid rest ih =>
      intro st
      rw [List.foldl_cons, List.foldl_cons]
      have hone : ((zeroiseEnv env).service vid).foldl
          (svcStep (zeroiseEnv env) (ivOf (zeroiseEnv env)) vid) st =
          (env.service vid).foldl (svcStep env (ivOf env) vid) st := by
        show ((env.service vid).map zeroiseSvc).foldl
          (svcStep (zeroiseEnv env) (ivOf (zeroiseEnv env)) vid) st = _
        exact foldl_map_congr _ _ zeroiseSvc
          (fun st' s => svcStep_zeroise env (ivOf env) vid st' s) _ _
      rw [hone]
      exact ih _
  exact hsvc (vIdsOf env) _

/-- **C6** (amended — Malformed-amount coercion): an *absent* amount field
(`sales`, an expense-line `amount`, a service `cost`) contributes exactly `0`
— replacing every absent amount by the literal `0` leaves the entire run
unchanged, and nothing is rejected.  (A *present but non-numeric* amount
string, by contrast, yields `NaN`, which propagates into the affected totals
— see the counterexample.) -/
theorem c6_missing_amount_zero (env : Env) :
    fetchSummaryData (zeroiseEnv env) = fetchSummaryData env := by
  have hrun := runAgg_zeroise env
  unfold fetchSummaryData computeGaps gapStep entityMissing
  rw [hrun]
  rfl

/-! ### C4: amortization toggle monotonicity -/

theorem foldl_nadd_qsum {α : Type} (f : α → QNaN) (step : QNaN → α → QNaN)
    (hstep : ∀ acc x, step acc x = nadd acc (f x)) :
    ∀ (l : List α) (acc : QNaN), l.foldl step acc = nadd acc (qsum (l.map f)) := by
  intro l
  induction l with
  | nil => intro acc; exact (nadd_zero acc).symm
  | cons x rest ih =>
    intro acc
    rw [List.foldl_cons, ih, hstep, List.map_cons]
    rw [show qsum (f x :: rest.map f) = nadd (f x) (qsum (rest.map f)) from rfl]
    rw [nadd_assoc]

theorem foldl_totalExp {α : Type} (step : AggState → α → AggState) (f : α → QNaN)
    (hstep : ∀ st x, (step st x).totalExp = nadd st.totalExp (f x)) :
    ∀ (l : List α) (st : AggState),
      (l.foldl step st).totalExp = nadd st.totalExp (qsum (l.map f)) := by
  intro l
  induction l with
  | nil => intro st; exact (nadd_zero _).symm
  | cons x rest ih =>
    intro st
    rw [List.foldl_cons, ih, hstep, List.map_cons]
    rw [show qsum (f x :: rest.map f) = nadd (f x) (qsum (rest.map f)) from rfl]
    rw [nadd_assoc]

theorem finExpAmt_qsum (incAm : Bool) (lines : List Expense) :
    lines.foldl
      (fun acc e =>
        if classAmort (strOrEmpty e.category) && !incAm then acc
        else nadd acc (toNum e.amount)) (some 0) =
    qsum (lines.map (lineContrib incAm)) := by
  rw [foldl_nadd_qsum (lineContrib incAm) _ ?hstep lines (some 0), zero_nadd]
  case hstep =>
    intro acc e
    unfold lineContrib
    by_cases hc : (classAmort (strOrEmpty e.category) && !incAm) = true
    · rw [if_pos hc, if_pos hc, nadd_zero]
    · rw [if_neg hc, if_neg hc]

theorem finStep_totalExp (env : Env) (itv : Interval) (st : AggState)
    (d : FinanceData) :
    (finStep env itv st d).totalExp =
      nadd st.totalExp (finExpContrib env.includeAmortization itv d) := by
  unfold finStep finExpContrib
  cases resolveDate d.date with
  | none => exact (nadd_zero _).symm
  | some dd =>
    simp only [finStepGo]
    by_cases hin : inInterval itv dd
    · rw [if_pos hin, if_pos hin]
    · rw [if_neg hin, if_neg hin]
      exact (nadd_zero _).symm

theorem svcStep_totalExp (env : Env) (itv : Interval) (vid : String)
    (st : AggState) (s : ServiceData) :
    (svcStep env itv vid st s).totalExp =
      nadd st.totalExp (svcExpContrib env.includeAmortization itv s) := by
  unfold svcStep svcExpContrib
  cases resolveDate s.date with
  | none => exact (nadd_zero _).symm
  | some sd =>
    simp only [svcStepGo]
    by_cases hin : inInterval itv sd
    · rw [if_pos hin, if_pos hin]
      by_cases hskip :
          (classAmort (strOrEmpty s.description) && !env.includeAmortization) = true
      · rw [if_pos hskip, if_pos hskip]
        exact (nadd_zero _).symm
      · rw [if_neg hskip, if_neg hskip]
    · rw [if_neg hin, if_neg hin]
      exact (nadd_zero _).symm

theorem svcOuter_totalExp (env : Env) :
    ∀ (vids : List String) (st : AggState),
      (vids.foldl (fun st vid =>
        (env.service vid).foldl (svcStep env (ivOf env) vid) st) st).totalExp =
      nadd st.totalExp (qsum (vids.map (fun vid =>
        qsum ((env.service vid).map
          (svcExpContrib env.includeAmortization (ivOf env)))))) := by
  intro vids
  induction vids with
  | nil => intro st; exact (nadd_zero _).symm
  | cons vid rest ih =>
    intro st
    rw [List.foldl_cons, ih,
      foldl_totalExp (svcStep env (ivOf env) vid)
        (svcExpContrib env.includeAmortization (ivOf env))
        (fun st' s => svcStep_totalExp env (ivOf env) vid st' s), List.map_cons]
    rw [show qsum ((qsum ((env.service vid).map
        (svcExpContrib env.includeAmortization (ivOf env)))) ::
        rest.map (fun vid => qsum ((env.service vid).map
          (svcExpContrib env.includeAmortization (ivOf env))))) =
      nadd (qsum ((env.service vid).map
        (svcExpContrib env.includeAmortization (ivOf env))))
        (qsum (rest.map (fun vid => qsum ((env.service vid).map
          (svcExpContrib env.includeAmortization (ivOf env)))))) from rfl]
    rw [nadd_assoc]

theorem runAgg_totalExp (env : Env) :
    (runAgg env).totalExp =
      nadd (qsum ((financesInScope env).map
          (finExpContrib env.includeAmortization (ivOf env))))
        (qsum ((vIdsOf env).map (fun vid =>
          qsum ((env.service vid).map
            (svcExpContrib env.includeAmortization (ivOf env)))))) := by
  unfold runAgg
  rw [svcOuter_totalExp env (vIdsOf env),
    foldl_totalExp (finStep env (ivOf env))
      (finExpContrib env.includeAmortization (ivOf env))
      (fun st d => finStep_totalExp env (ivOf env) st d)]
  rw [show (initState env).totalExp = some 0 from rfl, zero_nadd]

/-- The toggled-run form of `runAgg_totalExp` (the two runs share all inputs
except the flag). -/
theorem runAgg_totalExp_toggle (env : Env) (inc : Bool) :
    (runAgg { env with includeAmortization := inc }).totalExp =
      nadd (qsum ((financesInScope env).map (finExpContrib inc (ivOf env))))
        (qsum ((vIdsOf env).map (fun vid =>
          qsum ((env.service vid).map (svcExpContrib inc (ivOf env)))))) :=
  runAgg_totalExp { env with includeAmortization := inc }

theorem qsum_pair_le {α : Type} (f g : α → QNaN) (P : α → Prop) :
    ∀ (l : List α),
      (∀ x ∈ l, ∃ a b : ℚ, f x = some a ∧ g x = some b ∧ a ≤ b ∧ (a = b ↔ P x)) →
      ∃ A B : ℚ, qsum (l.map f) = some A ∧ qsum (l.map g) = some B ∧ A ≤ B ∧
        (A = B ↔ ∀ x ∈ l, P x) := by
  intro l
  induction l with
  | nil =>
    intro h
    exact ⟨0, 0, rfl, rfl, le_refl 0, by simp⟩
  | cons x rest ih =>
    intro h
    obtain ⟨a, b, hfa, hgb, hab, hiff⟩ := h x (List.mem_cons_self x rest)
    obtain ⟨A, B, hA, hB, hAB, hIff⟩ := ih (fun y hy => h y (List.mem_cons_of_mem x hy))
    refine ⟨a + A, b + B, ?_, ?_, by linarith, ?_⟩
    · rw [List.map_cons]
      rw [show qsum (f x :: rest.map f) = nadd (f x) (qsum (rest.map f)) from rfl]
      rw [hfa, hA]
      rfl
    · rw [List.map_cons]
      rw [show qsum (g x :: rest.map g) = nadd (g x) (qsum (rest.map g)) from rfl]
      rw [hgb, hB]
      rfl
    · constructor
      · intro he
        have h1 : a = b := by linarith
        have h2 : A = B := by linarith
        rw [List.forall_mem_cons]
        exact ⟨hiff.mp h1, hIff.mp h2⟩
      · intro hP
        rw [List.forall_mem_cons] at hP
        rw [hiff.mpr hP.1, hIff.mpr hP.2]

theorem lineContrib_spec (e : Expense) (hok : okAmtB e.amount = true) :
    ∃ a b : ℚ, lineContrib false e = some a ∧ lineContrib true e = some b ∧
      a ≤ b ∧ (a = b ↔ amortLineZeroB e = true) := by
  unfold okAmtB at hok
  cases hq : toNum e.amount with
  | none => rw [hq] at hok; exact absurd hok (by simp)
  | some q =>
    rw [hq] at hok
    have hq0 : 0 ≤ q := of_decide_eq_true hok
    unfold lineContrib amortLineZeroB
    by_cases hc : classAmort (strOrEmpty e.category) = true
    · refine ⟨0, q, ?_, ?_, hq0, ?_⟩
      · rw [if_pos (by rw [hc]; rfl)]
      · rw [if_neg (by rw [hc]; simp), hq]
      · rw [hc, hq]
        simp only [Bool.not_true, Bool.false_or, decide_eq_true_eq,
          Option.some.injEq]
        constructor
        · intro h; exact h.symm
        · intro h; exact h.symm
    · rw [Bool.not_eq_true] at hc
      refine ⟨q, q, ?_, ?_, le_refl q, ?_⟩
      · rw [if_neg (by rw [hc]; simp), hq]
      · rw [if_neg (by rw [hc]; simp), hq]
      · rw [hc]
        simp

theorem inScopeB_none (itv : Interval) (rd : RawDate)
    (hd : resolveDate rd = none) : inScopeB itv rd = false := by
  unfold inScopeB; rw [hd]

theorem inScopeB_some (itv : Interval) (rd : RawDate) (dd : SDateTime)
    (hd : resolveDate rd = some dd) :
    inScopeB itv rd = decide (inInterval itv dd) := by
  unfold inScopeB; rw [hd]

theorem finExpContrib_none (incAm : Bool) (itv : Interval) (d : FinanceData)
    (hd : resolveDate d.date = none) : finExpContrib incAm itv d = some 0 := by
  unfold finExpContrib; rw [hd]

theorem finExpContrib_some (incAm : Bool) (itv : Interval) (d : FinanceData)
    (dd : SDateTime) (hd : resolveDate d.date = some dd) :
    finExpContrib incAm itv d =
      if inInterval itv dd then finExpAmt incAm d else some 0 := by
  unfold finExpContrib; rw [hd]

theorem svcExpContrib_none (incAm : Bool) (itv : Interval) (s : ServiceData)
    (hd : resolveDate s.date = none) : svcExpContrib incAm itv s = some 0 := by
  unfold svcExpContrib; rw [hd]

theorem svcExpContrib_some (incAm : Bool) (itv : Interval) (s : ServiceData)
    (sd : SDateTime) (hd : resolveDate s.date = some sd) :
    svcExpContrib incAm itv s =
      if inInterval itv sd then
        (if classAmort (strOrEmpty s.description) && !incAm then some 0
         else toNum s.cost)
      else some 0 := by
  unfold svcExpContrib; rw [hd]

theorem finExpAmt_none (incAm : Bool) (d : FinanceData)
    (hde : d.expenses = none) : finExpAmt incAm d = some 0 := by
  unfold finExpAmt; rw [hde]

theorem finExpAmt_some (incAm : Bool) (d : FinanceData) (lines : List Expense)
    (hde : d.expenses = some lines) :
    finExpAmt incAm d = qsum (lines.map (lineContrib incAm)) := by
  unfold finExpAmt
  rw [hde]
  exact finExpAmt_qsum incAm lines

theorem amortZeroFB_none (d : FinanceData) (hde : d.expenses = none) :
    amortZeroFB d = true := by
  unfold amortZeroFB; rw [hde]

theorem amortZeroFB_some (d : FinanceData) (lines : List Expense)
    (hde : d.expenses = some lines) :
    amortZeroFB d = lines.all amortLineZeroB := by
  unfold amortZeroFB; rw [hde]

theorem finOkB_some (d : FinanceData) (lines : List Expense)
    (hde : d.expenses = some lines) :
    finOkB d = lines.all (fun e => okAmtB e.amount) := by
  unfold finOkB; rw [hde]

theorem finContrib_spec (itv : Interval) (d : FinanceData)
    (hok : inScopeB itv d.date = true → finOkB d = true) :
    ∃ a b : ℚ, finExpContrib false itv d = some a ∧
      finExpContrib true itv d = some b ∧ a ≤ b ∧
      (a = b ↔ (inScopeB itv d.date = true → amortZeroFB d = true)) := by
  cases hd : resolveDate d.date with
  | none =>
    rw [finExpContrib_none false itv d hd, finExpContrib_none true itv d hd,
      inScopeB_none itv d.date hd]
    exact ⟨0, 0, rfl, rfl, le_refl 0, by simp⟩
  | some dd =>
    rw [finExpContrib_some false itv d dd hd, finExpContrib_some true itv d dd hd,
      inScopeB_some itv d.date dd hd]
    by_cases hin : inInterval itv dd
    · have hokd : finOkB d = true := hok (by
        rw [inScopeB_some itv d.date dd hd]
        exact decide_eq_true hin)
      rw [if_pos hin, if_pos hin, decide_eq_true hin]
      simp only [eq_self_iff_true, true_implies]
      cases hde : d.expenses with
      | none =>
        rw [finExpAmt_none false d hde, finExpAmt_none true d hde,
          amortZeroFB_none d hde]
        exact ⟨0, 0, rfl, rfl, le_refl 0, by simp⟩
      | some lines =>
        rw [finOkB_some d lines hde, List.all_eq_true] at hokd
        rw [finExpAmt_some false d lines hde, finExpAmt_some true d lines hde,
          amortZeroFB_some d lines hde]
        obtain ⟨A, B, hA, hB, hAB, hIff⟩ :=
          qsum_pair_le (lineContrib false) (lineContrib true)
            (fun e => amortLineZeroB e = true) lines
            (fun e he => lineContrib_spec e (hokd e he))
        refine ⟨A, B, hA, hB, hAB, ?_⟩
        rw [hIff, List.all_eq_true]
    · rw [if_neg hin, if_neg hin, decide_eq_false hin]
      exact ⟨0, 0, rfl, rfl, le_refl 0, by simp⟩

theorem svcContrib_spec (itv : Interval) (s : ServiceData)
    (hok : inScopeB itv s.date = true → svcOkB s = true) :
    ∃ a b : ℚ, svcExpContrib false itv s = some a ∧
      svcExpContrib true itv s = some b ∧ a ≤ b ∧
      (a = b ↔ (inScopeB itv s.date = true → amortZeroSB s = true)) := by
  cases hd : resolveDate s.date with
  | none =>
    rw [svcExpContrib_none false itv s hd, svcExpContrib_none true itv s hd,
      inScopeB_none itv s.date hd]
    exact ⟨0, 0, rfl, rfl, le_refl 0, by simp⟩
  | some sd =>
    rw [svcExpContrib_some false itv s sd hd, svcExpContrib_some true itv s sd hd,
      inScopeB_some itv s.date sd hd]
    by_cases hin : inInterval itv sd
    · have hokd : svcOkB s = true := hok (by
        rw [inScopeB_some itv s.date sd hd]
        exact decide_eq_true hin)
      rw [if_pos hin, if_pos hin, decide_eq_true hin]
      simp only [eq_self_iff_true, true_implies]
      unfold svcOkB okAmtB at hokd
      cases hq : toNum s.cost with
      | none => rw [hq] at hokd; exact Bool.noConfusion hokd
      | some q =>
        rw [hq] at hokd
        have hq0 : 0 ≤ q := of_decide_eq_true hokd
        unfold amortZeroSB
        by_cases hc : classAmort (strOrEmpty s.description) = true
        · refine ⟨0, q, ?_, ?_, hq0, ?_⟩
          · rw [if_pos (by rw [hc]; rfl)]
          · rw [if_neg (by rw [hc]; simp)]
          · rw [hc, hq]
            simp only [Bool.not_true, Bool.false_or, decide_eq_true_eq,
              Option.some.injEq]
            constructor
            · intro h; exact h.symm
            · intro h; exact h.symm
        · rw [Bool.not_eq_true] at hc
          refine ⟨q, q, ?_, ?_, le_refl q, ?_⟩
          · rw [if_neg (by rw [hc]; simp)]
          · rw [if_neg (by rw [hc]; simp)]
          · rw [hc]
            simp
    · rw [if_neg hin, if_neg hin, decide_eq_false hin]
      exact ⟨0, 0, rfl, rfl, le_refl 0, by simp⟩

/-- **C4** (amended — Amortization toggle monotonicity): for a fixed
events/period/filter input whose in-scope amount fields all parse to
non-negative numbers, total expenses with `includeAmortization = false` are
at most those with `true`; equality holds iff every in-scope
amortization-classified expense line and service entry carries amount zero
(not, as originally claimed, iff no amortization-classified event exists:
a zero-amount amortization line leaves the totals equal, and without the
non-negativity proviso a negative amortization amount reverses the
inequality — see the counterexample). -/
theorem c4_amortization_monotone (env : Env)
    (hF : ∀ d ∈ financesInScope env,
      inScopeB (ivOf env) d.date = true → finOkB d = true)
    (hS : ∀ vid ∈ vIdsOf env, ∀ s ∈ env.service vid,
      inScopeB (ivOf env) s.date = true → svcOkB s = true) :
    ∃ a b : ℚ,
      (fetchSummaryData { env with includeAmortization := false }).expenses =
        some a ∧
      (fetchSummaryData { env with includeAmortization := true }).expenses =
        some b ∧
      a ≤ b ∧
      (a = b ↔
        ((∀ d ∈ financesInScope env,
            inScopeB (ivOf env) d.date = true → amortZeroFB d = true) ∧
         (∀ vid ∈ vIdsOf env, ∀ s ∈ env.service vid,
            inScopeB (ivOf env) s.date = true → amortZeroSB s = true))) := by
  obtain ⟨Af, Bf, hAf, hBf, hfle, hfiff⟩ :=
    qsum_pair_le (finExpContrib false (ivOf env)) (finExpContrib true (ivOf env))
      (fun d => inScopeB (ivOf env) d.date = true → amortZeroFB d = true)
      (financesInScope env)
      (fun d hd => finContrib_spec (ivOf env) d (hF d hd))
  obtain ⟨As, Bs, hAs, hBs, hsle, hsiff⟩ :=
    qsum_pair_le
      (fun vid => qsum ((env.service vid).map (svcExpContrib false (ivOf env))))
      (fun vid => qsum ((env.service vid).map (svcExpContrib true (ivOf env))))
      (fun vid => ∀ s ∈ env.service vid,
        inScopeB (ivOf env) s.date = true → amortZeroSB s = true)
      (vIdsOf env)
      (fun vid hvid =>
        qsum_pair_le (svcExpContrib false (ivOf env)) (svcExpContrib true (ivOf env))
          (fun s => inScopeB (ivOf env) s.date = true → amortZeroSB s = true)
          (env.service vid)
          (fun s hs => svcContrib_spec (ivOf env) s (hS vid hvid s hs)))
  refine ⟨Af + As, Bf + Bs, ?_, ?_, by linarith, ?_⟩
  · show (runAgg { env with includeAmortization := false }).totalExp =
      some (Af + As)
    rw [runAgg_totalExp_toggle env false, hAf, hAs]
    rfl
  · show (runAgg { env with includeAmortization := true }).totalExp =
      some (Bf + Bs)
    rw [runAgg_totalExp_toggle env true, hBf, hBs]
    rfl
  · constructor
    · intro he
      have h1 : Af = Bf := by linarith
      have h2 : As = Bs := by linarith
      exact ⟨hfiff.mp h1, hsiff.mp h2⟩
    · rintro ⟨r1, r2⟩
      rw [hfiff.mpr r1, hsiff.mpr r2]

/-- **C4 counterexample**: with a negative-amount amortization line in scope,
expenses with the toggle off (0) exceed expenses with it on (−1), refuting
the claimed unconditional `≤` (and hence the claimed equivalence). -/
theorem c4_counterexample :
    (fetchSummaryData { envAmortNeg with includeAmortization := false }).expenses =
      some 0 ∧
    (fetchSummaryData { envAmortNeg with includeAmortization := true }).expenses =
      some (-1) ∧
    ¬((0 : ℚ) ≤ -1) := by
  refine ⟨?_, ?_, by norm_num⟩
  · have h : (fetchSummaryData
        { envAmortNeg with includeAmortization := false }).expenses =
        some (0 + 0) := by rfl
    rw [h]
    norm_num
  · have h : (fetchSummaryData
        { envAmortNeg with includeAmortization := true }).expenses =
        some (0 + (0 + -1)) := by rfl
    rw [h]
    norm_num

/-- Concrete check of the amended C4 at `envAmortPos`. -/
theorem c4_amortization_monotone_witness :
    (∀ d ∈ financesInScope envAmortPos,
      inScopeB (ivOf envAmortPos) d.date = true → finOkB d = true) ∧
    (∀ vid ∈ vIdsOf envAmortPos, ∀ s ∈ envAmortPos.service vid,
      inScopeB (ivOf envAmortPos) s.date = true → svcOkB s = true) ∧
    (∃ a b : ℚ,
      (fetchSummaryData { envAmortPos with includeAmortization := false }).expenses =
        some a ∧
      (fetchSummaryData { envAmortPos with includeAmortization := true }).expenses =
        some b ∧
      a ≤ b ∧
      (a = b ↔
        ((∀ d ∈ financesInScope envAmortPos,
            inScopeB (ivOf envAmortPos) d.date = true → amortZeroFB d = true) ∧
         (∀ vid ∈ vIdsOf envAmortPos, ∀ s ∈ envAmortPos.service vid,
            inScopeB (ivOf envAmortPos) s.date = true → amortZeroSB s = true)))) :=
  ⟨by decide, by decide,
   c4_amortization_monotone envAmortPos (by decide) (by decide)⟩

end JollyG
